import Mathlib

/-!
Shallow embedding of TiDB's fast-path point-get planner and executor
(pkg/planner/core point-get plan construction and pkg/executor/point_get.go),
together with proofs about the behaviour of the embedded operations.

External collaborators that the excerpted code calls into (the `types` datum
conversion routines, the storage / pessimistic-lock client, the row codec,
the consistency reporter) are modelled as explicit Lean functions whose
behaviour follows the contracts stated for them; everything else is a direct
translation of the Go source.
-/

namespace PointGetModel

/-- Error taxonomy used by the embedded planner and executor.  Mirrors the
`types.ErrOverflow` / `types.ErrDataTooLong` / `types.ErrTruncated` /
`types.ErrTruncatedWrongVal` / `kv.ErrNotExist` errors plus the consistency
reporter failure and a catch-all for errors whose identity the claims do not
depend on. -/
inductive Err where
  | notExist
  | overflow
  | dataTooLong
  | truncated
  | truncatedWrongVal
  | inconsistent
  | other
deriving DecidableEq, Repr

/-- Model of `types.Datum` restricted to the value kinds the fast path
manipulates: NULL, signed integers and strings.  (Unsigned, float, decimal
and binary-literal kinds behave like the integer/string cases for every
branch the claims exercise; the `numericKind` flag below stands for the
numeric kinds as a group.) -/
inductive Datum where
  | dnull
  | dint (v : Int)
  | dstr (s : String)
deriving DecidableEq, Repr

/-- `Datum.IsNull`. -/
def Datum.isNull : Datum → Bool
  | .dnull => true
  | _ => false

/-- `Datum.GetInt64`: the `i64` field of the datum; zero for non-integer
kinds, as for Go's zero value. -/
def Datum.getInt64 : Datum → Int
  | .dint v => v
  | _ => 0

/-- Model of `types.FieldType` restricted to what the fast path inspects:
integer types carry signedness and bit width, string types carry whether the
collation is binary, plus the BIT type. -/
inductive FieldTp where
  | tpInt (signed : Bool) (bits : Nat)
  | tpString (binaryCollate : Bool)
  | tpBit
deriving DecidableEq, Repr

/-- `FieldType.EvalType() == types.ETString`. -/
def FieldTp.isStringEval : FieldTp → Bool
  | .tpString _ => true
  | _ => false

/-- Smallest value representable in an integer column. -/
def intLowerBound (signed : Bool) (bits : Nat) : Int :=
  if signed then -(2 ^ (bits - 1)) else 0

/-- One past the largest value representable in an integer column. -/
def intUpperBound (signed : Bool) (bits : Nat) : Int :=
  if signed then 2 ^ (bits - 1) else 2 ^ bits

/-- Modelled from the spec: `types.Datum.ConvertTo` (and `table.CastValue`,
which wraps it) live in the out-of-scope `types`/`table` packages.  Following
the spec's coercion contract, the conversion returns the converted datum
together with an optional error, Go style: an integer outside the target
integer range yields the clamped value plus `ErrOverflow`; a string that is
not a decimal integer literal converted to an integer type yields
`ErrTruncatedWrongVal`; string targets stringify. -/
def convertTo (d : Datum) (ft : FieldTp) : Datum × Option Err :=
  match d, ft with
  | .dnull, _ => (.dnull, none)
  | .dint v, .tpInt signed bits =>
      if intLowerBound signed bits ≤ v ∧ v < intUpperBound signed bits then
        (.dint v, none)
      else if v < intLowerBound signed bits then
        (.dint (intLowerBound signed bits), some .overflow)
      else
        (.dint (intUpperBound signed bits - 1), some .overflow)
  | .dint v, .tpString _ => (.dstr (toString v), none)
  | .dint v, .tpBit => (.dint v, none)
  | .dstr s, .tpInt signed bits =>
      match s.toInt? with
      | some v =>
          if intLowerBound signed bits ≤ v ∧ v < intUpperBound signed bits then
            (.dint v, none)
          else (.dint 0, some .overflow)
      | none => (.dint 0, some .truncatedWrongVal)
  | .dstr s, .tpString _ => (.dstr s, none)
  | .dstr _, .tpBit => (.dint 0, some .truncatedWrongVal)

/-- Modelled from the spec: `Datum.Compare` under the column's collation,
used only for the round-trip equality check (`cmp != 0`).  Comparison across
kinds compares the numeric interpretation when the string side parses as an
integer. -/
def datumCompareEq (a b : Datum) : Bool :=
  match a, b with
  | .dnull, .dnull => true
  | .dint x, .dint y => x == y
  | .dstr x, .dstr y => x == y
  | .dint x, .dstr y => y.toInt? == some x
  | .dstr x, .dint y => x.toInt? == some y
  | _, _ => false

/-- `model.ColumnInfo` restricted to the fields the fast path reads. -/
structure ColumnInfo where
  name : String
  ftype : FieldTp
  isGenerated : Bool := false
  statePublic : Bool := true
  hasPriKeyFlag : Bool := false
deriving DecidableEq, Repr

/-- `model.IndexColumn`: column name plus prefix length (`none` models
`types.UnspecifiedLength`, `some n` a prefix index of length `n`), and the
offset of the column in the table's column slice. -/
structure IndexColumn where
  name : String
  lengthOpt : Option Nat := none
  offset : Nat := 0
deriving DecidableEq, Repr

/-- `model.IndexInfo` restricted to the fields the fast path reads. -/
structure IndexInfo where
  name : String
  id : Int
  columns : List IndexColumn
  unique : Bool := false
  statePublic : Bool := true
  invisible : Bool := false
  mvIndex : Bool := false
  global : Bool := false
  primary : Bool := false
deriving DecidableEq, Repr

/-- `model.IndexInfo.HasPrefixIndex`. -/
def IndexInfo.hasPrefixIndex (idx : IndexInfo) : Bool :=
  idx.columns.any (fun c => c.lengthOpt.isSome)

/-- `model.PartitionDefinition` restricted to id and (lower-case) name. -/
structure PartitionDefinition where
  id : Int
  name : String
deriving DecidableEq, Repr

/-- `model.PartitionType`. -/
inductive PartitionTp where
  | hash
  | keyTp
  | range
  | list
deriving DecidableEq, Repr

/-- Model of the `tables.PartitionExpr` collaborator returned by the
infoschema for a partitioned table.  `origExprCol` models `OrigExpr` being a
`*ast.ColumnNameExpr` (hash case), `exprCol` models `Expr` being a
`*expression.Column` resolved back to its column name (range/list and the
batch-path check), `keyPartCols` the key-partition columns, `rangeLessThan`
the `ForRangePruning` boundaries (`none` models MAXVALUE), `listColPrunesNil`
whether `ForListPruning.ColPrunes == nil`, and `locateKeyPart` /
`locateListPart` the `LocateKeyPartition` / `LocatePartition` collaborator
functions (the latter returning a negative position when no list partition
matches). -/
structure PartExprModel where
  origExprCol : Option String := none
  exprCol : Option String := none
  keyPartCols : List String := []
  rangeLessThan : List (Option Int) := []
  listColPrunesNil : Bool := true
  locateKeyPart : Nat → Datum → Except Unit Nat := fun _ _ => .error ()
  locateListPart : Int → Bool → Int := fun _ _ => -1

/-- `model.PartitionInfo` restricted to the fields the fast path reads.
`columns` is `pi.Columns` (the explicit column list of KEY/RANGE COLUMNS
partitioning). -/
structure PartitionInfo where
  tp : PartitionTp
  num : Nat
  definitions : List PartitionDefinition
  columns : List String := []
  hasAddingDefs : Bool := false
  hasDroppingDefs : Bool := false

/-- `model.TableInfo` restricted to the fields the fast path reads.
`partitionExpr` models the result of the `getPartitionExpr` infoschema
lookup for this table (`none` when the lookup fails or the table is not
partitioned); `tempTable` models `TempTableType != TempTableNone`;
`tableLockRead` models holding a `TableLockRead`/`TableLockReadOnly` lock. -/
structure TableInfo where
  id : Int
  name : String
  columns : List ColumnInfo
  indices : List IndexInfo := []
  pkIsHandle : Bool := false
  isCommonHandle : Bool := false
  isView : Bool := false
  partition : Option PartitionInfo := none
  partitionExpr : Option PartExprModel := none
  tempTable : Bool := false
  tableLockRead : Bool := false

/-- `model.FindColumnInfo` over `tbl.Cols()`. -/
def findColumnInfo (cols : List ColumnInfo) (name : String) : Option ColumnInfo :=
  cols.find? (fun c => c.name == name)

/-- The `nameValuePair` struct of the plan builder. -/
structure NVPair where
  colName : String
  colFieldType : FieldTp
  value : Datum
deriving DecidableEq, Repr

/-!
## AST model

The sub-language of `ast` nodes that the fast path inspects.  Parameter
markers are represented by their compile-time evaluated constant (the Go code
evaluates `ParamMarkerExpr` to a datum via `expression.ParamMarkerExpression`
plus `Eval` before using it, so a marker and its evaluated literal follow the
same path afterwards); every other node kind is `otherExpr` and makes the
relevant extraction abort exactly as the Go type switches do.
-/

/-- Expression nodes inspected by the fast path.  `logicAnd`/`eqExpr` model a
`BinaryOperationExpr` with `opcode.LogicAnd`/`opcode.EQ`; `colRef` a
`ColumnNameExpr` with optional table qualifier (empty = unqualified); `val` a
`driver.ValueExpr`; `patternIn` an `ast.PatternInExpr`; `rowExpr` an
`ast.RowExpr`; `paren` an `ast.ParenthesesExpr`. -/
inductive Expr where
  | logicAnd (l r : Expr)
  | eqExpr (l r : Expr)
  | colRef (tblQualifier : String) (name : String)
  | val (d : Datum)
  | patternIn (e : Expr) (isNot : Bool) (list : List Expr)
  | rowExpr (vals : List Expr)
  | paren (e : Expr)
  | otherExpr

/-- Select-list fields: a possibly qualified wildcard, a possibly qualified
and aliased plain column reference, or anything else (which disqualifies the
fast path in `buildSchemaFromFields`). -/
inductive SelectField where
  | wildcard (tblQualifier : String)
  | colField (tblQualifier : String) (name : String) (asName : String)
  | otherField

/-- `ast.IndexHint` restricted to what `indexIsAvailableByHints` reads.
`indexNames = none` models a nil `IndexNames` slice. -/
inductive HintTp where
  | use
  | ignore
  | force
deriving DecidableEq, Repr

structure IndexHint where
  hintType : HintTp
  scopeForScan : Bool := true
  indexNames : Option (List String) := none

/-- `ast.TableName` restricted to what the fast path reads.  `tableInfo` is
the schema-resolved table metadata (`nil` in Go when unresolved). -/
structure TableName where
  schemaName : String := ""
  name : String
  tableInfo : Option TableInfo := none
  partitionNames : List String := []
  indexHints : List IndexHint := []

/-- The single-table shape accepted by `getSingleTableNameAndAlias`: either a
lone `TableSource` wrapping a `TableName` (with optional alias), or any other
table-reference tree (joins, subqueries), which yields no table. -/
inductive FromClause where
  | singleTable (tbl : TableName) (asName : String)
  | joinOrOther

/-- An already-evaluated `LIMIT count OFFSET offset` clause
(`extractLimitCountOffset` evaluates the expressions; evaluation failure is
modelled by `evalErr`). -/
structure LimitClause where
  count : Nat
  offset : Nat
  evalErr : Bool := false

/-- `ast.SelectStmt` restricted to the clauses the fast path checks. -/
structure SelectStmt where
  fromClause : Option FromClause
  whereExpr : Option Expr := none
  fields : List SelectField := []
  hasHaving : Bool := false
  hasOrderBy : Bool := false
  hasGroupBy : Bool := false
  hasDistinct : Bool := false
  windowSpecCount : Nat := 0
  limit : Option LimitClause := none

/-!
## Session context model
-/

/-- The slice of `sessionctx.Context`/session-vars state that the planner
reads.  `latestIndexes` models the result of the `getLatestIndexInfo`
infoschema collaborator: `none` for a lookup error, otherwise the map from
index id to whether the index is public in the latest schema, paired with the
returned `check` flag. -/
structure PlanCtx where
  isRC : Bool := false
  connectionIDPositive : Bool := true
  currentDB : String := ""
  lockWaitTimeout : Int := 0
  latestIndexes : Option (List (Int × Bool) × Bool) := some ([], false)

/-!
## Predicate extraction (`getNameValuePairs` and friends)
-/

/-- `checkCanConvertInPointGet`: reject numeric constants against
string-evaluated columns and string constants against BIT columns. -/
def checkCanConvertInPointGet (col : ColumnInfo) (d : Datum) : Bool :=
  let numericReject :=
    col.ftype.isStringEval &&
      (match d with
       | .dint _ => true
       | _ => false)
  let bitReject :=
    (match col.ftype with
     | .tpBit => (match d with | .dstr _ => true | _ => false)
     | _ => false)
  !numericReject && !bitReject

/-- The `binOp.Op == opcode.EQ` branch body of `getNameValuePairs`: given the
column side and the evaluated constant side, either extend the pair list or
abort; the `Bool` is `isTableDual`. -/
def getNameValuePairsEq (tbl : TableInfo) (tblName : String)
    (nvPairs : List NVPair) (tblQual colNameL : String) (d : Datum) :
    Option (List NVPair) × Bool :=
  if d.isNull then (none, false)
  else if tbl.isView then (none, false)
  else if tblQual ≠ "" ∧ tblQual ≠ tblName then (none, false)
  else
    match findColumnInfo tbl.columns colNameL with
    | none =>
        -- Handling the case when the column is _tidb_rowid.
        (some (nvPairs ++ [⟨colNameL, .tpInt true 64, d⟩]), false)
    | some col =>
        -- The binary-collation CHAR early return of the source.
        if (match col.ftype with | .tpString b => b | _ => false) then
          (some (nvPairs ++ [⟨colNameL, col.ftype, d⟩]), false)
        else if !checkCanConvertInPointGet col d then (none, false)
        else
          let conv := convertTo d col.ftype
          match conv.2 with
          | some .overflow => (some (nvPairs ++ [⟨colNameL, col.ftype, d⟩]), true)
          | some .truncatedWrongVal =>
              if datumCompareEq conv.1 d then
                (some (nvPairs ++ [⟨colNameL, col.ftype, conv.1⟩]), false)
              else (none, false)
          | some _ => (none, false)
          | none =>
              if datumCompareEq conv.1 d then
                (some (nvPairs ++ [⟨colNameL, col.ftype, conv.1⟩]), false)
              else (none, false)

/-- `getNameValuePairs`: extract `column = constant` conjunctions from the
filter; the `Bool` is `isTableDual`. -/
def getNameValuePairs (tbl : TableInfo) (tblName : String)
    (nvPairs : List NVPair) : Expr → Option (List NVPair) × Bool
  | .logicAnd l r =>
      match getNameValuePairs tbl tblName nvPairs l with
      | (none, dual) => (none, dual)
      | (some _, true) => (none, true)
      | (some acc, false) =>
          match getNameValuePairs tbl tblName acc r with
          | (none, dual) => (none, dual)
          | (some _, true) => (none, true)
          | (some acc2, false) => (some acc2, false)
  | .eqExpr l r =>
      match l, r with
      | .colRef q n, .val d => getNameValuePairsEq tbl tblName nvPairs q n d
      | .val d, .colRef q n => getNameValuePairsEq tbl tblName nvPairs q n d
      | _, _ => (none, false)
  | _ => (none, false)

/-- `getPointGetValue`: the batch-path analogue of the conversion and
round-trip check of `getNameValuePairs`. -/
def getPointGetValue (col : ColumnInfo) (d : Datum) : Option Datum :=
  if !checkCanConvertInPointGet col d then none
  else
    let conv := convertTo d col.ftype
    match conv.2 with
    | some _ => none
    | none => if datumCompareEq conv.1 d then some conv.1 else none

/-- `findInPairs`. -/
def findInPairs (colName : String) (pairs : List NVPair) : Option Nat :=
  (pairs.findIdx? (fun p => p.colName == colName))

/-- `findPKHandle`: the pair giving the integer row handle, if any,
together with the declared handle field type. -/
def findPKHandle (tbl : TableInfo) (pairs : List NVPair) :
    Option NVPair × Option FieldTp :=
  if !tbl.pkIsHandle then
    match findInPairs "_tidb_rowid" pairs with
    | some i => (pairs[i]?, some (.tpInt true 64))
    | none => (none, none)
  else
    match tbl.columns.find? (fun c => c.hasPriKeyFlag) with
    | some col =>
        match findInPairs col.name pairs with
        | some i => (pairs[i]?, some col.ftype)
        | none => (none, none)
    | none => (none, none)

/-- `getIndexValues`: the values of `pairs` arranged in index-column order,
or `none` when the pair set does not exactly cover the index columns. -/
def getIndexValues (idxInfo : IndexInfo) (pairs : List NVPair) :
    Option (List Datum × List FieldTp) :=
  if idxInfo.columns.length ≠ pairs.length then none
  else if idxInfo.hasPrefixIndex then none
  else
    let rec collect : List IndexColumn → Option (List Datum × List FieldTp)
      | [] => some ([], [])
      | c :: rest =>
          match findInPairs c.name pairs with
          | none => none
          | some i =>
              match pairs[i]?, collect rest with
              | some p, some (vs, ts) => some (p.value :: vs, p.colFieldType :: ts)
              | _, _ => none
    match collect idxInfo.columns with
    | some (vs, ts) => if vs.length > 0 then some (vs, ts) else none
    | none => none

/-- `indexIsAvailableByHints` (`idxInfo = none` denotes the primary key). -/
def indexIsAvailableByHints (idxInfo : Option IndexInfo)
    (idxHints : List IndexHint) : Bool :=
  if idxHints.isEmpty then true
  else
    let match1 : String → Bool := fun nameL =>
      match idxInfo with
      | none => nameL == "primary"
      | some idx => idx.name == nameL
    let rec go (hints : List IndexHint) (isIgnore : Bool) : Bool :=
      match hints with
      | [] => isIgnore
      | h :: rest =>
          if !h.scopeForScan then go rest isIgnore
          else
            match h.hintType, h.indexNames with
            | .ignore, some names =>
                if names.any match1 then false else go rest true
            | .use, some names =>
                if names.any match1 then true else go rest isIgnore
            | .force, some names =>
                if names.any match1 then true else go rest isIgnore
            | _, _ => go rest isIgnore
    go idxHints false

/-- `partitionNameInSet` (case-insensitivity is modelled by storing names
lower-cased). -/
def partitionNameInSet (name : String) (pnames : List String) : Bool :=
  pnames.any (fun p => p == name)

/-!
## Partition resolution (`getPartitionDef`)
-/

/-- `RangePruner.Compare(i, val, unsigned) > 0`: whether the `i`-th range
boundary is strictly greater than the value (`none` models MAXVALUE). -/
def rangeBoundGT (bound : Option Int) (v : Int) : Bool :=
  match bound with
  | none => true
  | some b => v < b

/-- Dummy definition standing for Go's out-of-range indexing panic; the
theorems only quantify over metadata where every computed position is in
range, so this default is never produced there. -/
def dummyDef : PartitionDefinition := ⟨0, ""⟩

/-- `getPartitionDef`: resolve the single partition a row with the given
pairs maps to.  Result: `(partition definition?, index of the pair on the
partitioning column, partition position, isTableDual)`. -/
def getPartitionDef (tbl : TableInfo) (pairs : List NVPair) :
    Option PartitionDefinition × Nat × Int × Bool :=
  match tbl.partitionExpr with
  | none => (none, 0, 0, false)
  | some pe =>
    match tbl.partition with
    | none => (none, 0, 0, false)
    | some pi =>
      match pi.tp with
      | .hash =>
          match pe.origExprCol with
          | none => (none, 0, 0, false)
          | some partitionColName =>
              match pairs.findIdx? (fun pair => partitionColName == pair.colName) with
              | none => (none, 0, 0, false)
              | some i =>
                  let val := ((pairs.getD i ⟨"", .tpBit, .dnull⟩).value).getInt64
                  let pos := (val.tmod (Int.ofNat pi.num)).natAbs
                  (some (pi.definitions.getD pos dummyDef), i, Int.ofNat pos, false)
      | .keyTp =>
          if pi.columns.length = 1 then
            let partCol := pi.columns.getD 0 ""
            match pairs.findIdx? (fun pair => partCol == pair.colName) with
            | none => (none, 0, 0, false)
            | some i =>
                match pe.locateKeyPart pi.num (pairs.getD i ⟨"", .tpBit, .dnull⟩).value with
                | .error _ => (none, 0, 0, false)
                | .ok pos => (some (pi.definitions.getD pos dummyDef), i, Int.ofNat pos, false)
          else (none, 0, 0, false)
      | .range =>
          if pi.columns.length = 0 then
            match pe.exprCol with
            | none => (none, 0, 0, false)
            | some partitionColName =>
                match pairs.findIdx? (fun pair => partitionColName == pair.colName) with
                | none => (none, 0, 0, false)
                | some i =>
                    let val := ((pairs.getD i ⟨"", .tpBit, .dnull⟩).value).getInt64
                    let len := pe.rangeLessThan.length
                    let pos := pe.rangeLessThan.findIdx (fun b => rangeBoundGT b val)
                    if pos < len then
                      (some (pi.definitions.getD pos dummyDef), i, Int.ofNat pos, false)
                    else (none, 0, 0, true)
          else (none, 0, 0, false)
      | .list =>
          if pe.listColPrunesNil then
            match pe.exprCol with
            | none => (none, 0, 0, false)
            | some partitionColName =>
                match pairs.findIdx? (fun pair => partitionColName == pair.colName) with
                | none => (none, 0, 0, false)
                | some i =>
                    let val := ((pairs.getD i ⟨"", .tpBit, .dnull⟩).value).getInt64
                    let pos := pe.locateListPart val false
                    if 0 ≤ pos then
                      (some (pi.definitions.getD pos.toNat dummyDef), i, pos, false)
                    else (none, 0, 0, true)
          else (none, 0, 0, false)

/-- `findPartitionIdx`: position of the partitioning column inside the chosen
index's column list. -/
def findPartitionIdx (idxInfo : IndexInfo) (pos : Nat) (pairs : List NVPair) : Nat :=
  match idxInfo.columns.findIdx?
      (fun c => c.name == (pairs.getD pos ⟨"", .tpBit, .dnull⟩).colName) with
  | some i => i
  | none => 0

/-!
## Point-get plan construction
-/

/-- `PointGetPlan` restricted to the fields the claims inspect. -/
structure PointGetPlan where
  dbName : String := ""
  tblInfo : TableInfo
  indexInfo : Option IndexInfo := none
  partitionDef : Option PartitionDefinition := none
  handle : Option Int := none
  unsignedHandle : Bool := false
  handleFieldType : Option FieldTp := none
  indexValues : List Datum := []
  colsFieldType : List FieldTp := []
  isTableDual : Bool := false
  lock : Bool := false
  lockWaitTime : Int := 0
  partitionColumnPos : Nat := 0
  schemaCols : List ColumnInfo := []
  outputNames : List String := []

/-- `newPointGetPlan`. -/
def newPointGetPlan (ctxLockWaitTimeout : Int) (dbName : String)
    (schema : List ColumnInfo) (tbl : TableInfo) (names : List String) :
    PointGetPlan :=
  { dbName := dbName, tblInfo := tbl, schemaCols := schema,
    outputNames := names, lockWaitTime := ctxLockWaitTimeout }

/-- Lookup in the latest-schema index map returned by `getLatestIndexInfo`. -/
def lookupLatestIndex (m : List (Int × Bool)) (id : Int) : Option Bool :=
  (m.find? (fun e => e.1 == id)).map (fun e => e.2)

/-- The index-scanning loop of `checkTblIndexForPointPlan`, threading the
mutable `check` / `latestIndexes` locals through the recursion. -/
def checkTblIndexLoop (ctx : PlanCtx) (tblName : TableName) (tbl : TableInfo)
    (dbName : String) (schema : List ColumnInfo) (names : List String)
    (pairs : List NVPair) (partitionDef : Option PartitionDefinition) (pos : Nat)
    (globalIndexCheck isTableDual : Bool) :
    List IndexInfo → Bool → Option (List (Int × Bool)) → Option PointGetPlan
  | [], _, _ => none
  | idxInfo :: rest, check, latest =>
    if !idxInfo.unique || !idxInfo.statePublic || idxInfo.invisible || idxInfo.mvIndex ||
        !indexIsAvailableByHints (some idxInfo) tblName.indexHints then
      checkTblIndexLoop ctx tblName tbl dbName schema names pairs partitionDef pos
        globalIndexCheck isTableDual rest check latest
    else if globalIndexCheck && !idxInfo.global then
      checkTblIndexLoop ctx tblName tbl dbName schema names pairs partitionDef pos
        globalIndexCheck isTableDual rest check latest
    else if isTableDual then
      match check, latest with
      | true, none =>
          match ctx.latestIndexes with
          | none => none
          | some (m, check2) =>
              if check2 then
                if lookupLatestIndex m idxInfo.id ≠ some true then
                  checkTblIndexLoop ctx tblName tbl dbName schema names pairs partitionDef
                    pos globalIndexCheck isTableDual rest check2 (some m)
                else
                  some { (newPointGetPlan ctx.lockWaitTimeout tblName.schemaName schema tbl
                    names) with isTableDual := true }
              else
                some { (newPointGetPlan ctx.lockWaitTimeout tblName.schemaName schema tbl
                  names) with isTableDual := true }
      | true, some m =>
          if lookupLatestIndex m idxInfo.id ≠ some true then
            checkTblIndexLoop ctx tblName tbl dbName schema names pairs partitionDef pos
              globalIndexCheck isTableDual rest check latest
          else
            some { (newPointGetPlan ctx.lockWaitTimeout tblName.schemaName schema tbl
              names) with isTableDual := true }
      | false, _ =>
          some { (newPointGetPlan ctx.lockWaitTimeout tblName.schemaName schema tbl
            names) with isTableDual := true }
    else
      match getIndexValues idxInfo pairs with
      | none =>
          checkTblIndexLoop ctx tblName tbl dbName schema names pairs partitionDef pos
            globalIndexCheck isTableDual rest check latest
      | some (idxValues, colsFieldType) =>
          let buildPlan : Option PointGetPlan :=
            let p := newPointGetPlan ctx.lockWaitTimeout dbName schema tbl names
            some { p with indexInfo := some idxInfo, indexValues := idxValues,
                          colsFieldType := colsFieldType, partitionDef := partitionDef,
                          partitionColumnPos :=
                            if partitionDef.isSome then findPartitionIdx idxInfo pos pairs
                            else p.partitionColumnPos }
          match check, latest with
          | true, none =>
              match ctx.latestIndexes with
              | none => none
              | some (m, check2) =>
                  if check2 then
                    if lookupLatestIndex m idxInfo.id ≠ some true then
                      checkTblIndexLoop ctx tblName tbl dbName schema names pairs
                        partitionDef pos globalIndexCheck isTableDual rest check2 (some m)
                    else buildPlan
                  else buildPlan
          | true, some m =>
              if lookupLatestIndex m idxInfo.id ≠ some true then
                checkTblIndexLoop ctx tblName tbl dbName schema names pairs partitionDef
                  pos globalIndexCheck isTableDual rest check latest
              else buildPlan
          | false, _ => buildPlan

/-- `checkTblIndexForPointPlan`. -/
def checkTblIndexForPointPlan (ctx : PlanCtx) (tblName : TableName)
    (schema : List ColumnInfo) (names : List String) (pairs : List NVPair)
    (partitionDef : Option PartitionDefinition) (pos : Nat)
    (globalIndexCheck isTableDual check : Bool) : Option PointGetPlan :=
  if globalIndexCheck &&
      (!tblName.partitionNames.isEmpty ||
        (match tblName.tableInfo with
         | none => true
         | some tbl =>
             match tbl.partition with
             | none => false
             | some pi => pi.hasAddingDefs || pi.hasDroppingDefs)) then
    none
  else
    let check1 := check || ctx.isRC
    let check2 := check1 && ctx.connectionIDPositive
    match tblName.tableInfo with
    | none => none
    | some tbl =>
        let dbName := if tblName.schemaName ≠ "" then tblName.schemaName else ctx.currentDB
        checkTblIndexLoop ctx tblName tbl dbName schema names pairs partitionDef pos
          globalIndexCheck isTableDual tbl.indices check2 none

/-!
## Schema construction and the `tryPointGetPlan` entry point
-/

/-- `getSingleTableNameAndAlias`. -/
def getSingleTableNameAndAlias : Option FromClause → Option (TableName × String)
  | some (.singleTable tbl asName) =>
      some (tbl, if asName = "" then tbl.name else asName)
  | _ => none

/-- `findCol`: look up a select-field column, synthesizing the extra
`_tidb_rowid` handle column when the primary key is not the row handle. -/
def findCol (tbl : TableInfo) (name : String) : Option ColumnInfo :=
  if name == "_tidb_rowid" && !tbl.pkIsHandle then
    some { name := "_tidb_rowid", ftype := .tpInt true 64 }
  else tbl.columns.find? (fun c => c.name == name)

/-- The field loop of `buildSchemaFromFields`. -/
def buildFieldsLoop (tbl : TableInfo) (tblName : String) :
    List SelectField → Option (List ColumnInfo × List String)
  | [] => some ([], [])
  | .wildcard q :: rest =>
      if q ≠ "" ∧ q ≠ tblName then none
      else
        match buildFieldsLoop tbl tblName rest with
        | none => none
        | some (cs, ns) => some (tbl.columns ++ cs, tbl.columns.map (fun c => c.name) ++ ns)
  | .colField q n asName :: rest =>
      if q ≠ "" ∧ q ≠ tblName then none
      else
        match findCol tbl n with
        | none => none
        | some col =>
            match buildFieldsLoop tbl tblName rest with
            | none => none
            | some (cs, ns) => some (col :: cs, (if asName ≠ "" then asName else n) :: ns)
  | .otherField :: _ => none

/-- `buildSchemaFromFields` (an empty field list — UPDATE/DELETE — selects
all columns). -/
def buildSchemaFromFields (tbl : TableInfo) (tblName : String)
    (fields : List SelectField) : Option (List ColumnInfo × List String) :=
  if fields.length > 0 then buildFieldsLoop tbl tblName fields
  else some (tbl.columns, tbl.columns.map (fun c => c.name))

/-- `tryPointGetPlan`: determine whether the SELECT can use a point-get
plan; `none` models falling back to the general planner. -/
def tryPointGetPlan (ctx : PlanCtx) (selStmt : SelectStmt) (check : Bool) :
    Option PointGetPlan :=
  if selStmt.hasHaving || selStmt.hasOrderBy then none
  else if (match selStmt.limit with
           | some l => l.evalErr || l.count = 0 || l.offset > 0
           | none => false) then none
  else
    match getSingleTableNameAndAlias selStmt.fromClause with
    | none => none
    | some (tblName, tblAlias) =>
      match tblName.tableInfo with
      | none => none
      | some tbl =>
        if tbl.columns.any (fun c => c.isGenerated) then none
        else if tbl.columns.any (fun c => !c.statePublic) then none
        else
          match buildSchemaFromFields tbl tblAlias selStmt.fields with
          | none => none
          | some (schema, names) =>
            let dbName := if tblName.schemaName ≠ "" then tblName.schemaName
                          else ctx.currentDB
            let extracted := match selStmt.whereExpr with
              | some w => getNameValuePairs tbl tblAlias [] w
              | none => (none, false)
            if extracted.1.isNone && !extracted.2 then none
            else
              let pairs := extracted.1.getD []
              let isTableDual0 := extracted.2
              -- partition resolution (overwrites isTableDual, as the source does)
              let partRes : Option PartitionDefinition × Nat × Bool :=
                match tbl.partition with
                | some _ =>
                    let r := getPartitionDef tbl pairs
                    (r.1, r.2.1, r.2.2.2)
                | none => (none, 0, isTableDual0)
              let partitionDef := partRes.1
              let pairIdx := partRes.2.1
              let isTableDual := partRes.2.2
              if tbl.partition.isSome then
                if isTableDual then
                  some { (newPointGetPlan ctx.lockWaitTimeout tblName.schemaName schema tbl
                    names) with isTableDual := true }
                else if partitionDef.isNone then
                  checkTblIndexForPointPlan ctx tblName schema names pairs none pairIdx
                    true isTableDual check
                else if !tblName.partitionNames.isEmpty &&
                    !partitionNameInSet ((partitionDef.getD dummyDef).name)
                      tblName.partitionNames then
                  some { (newPointGetPlan ctx.lockWaitTimeout tblName.schemaName schema tbl
                    names) with isTableDual := true }
                else
                  tryPointGetPlanHandlePart ctx tblName tbl dbName schema names pairs
                    partitionDef pairIdx isTableDual check
              else
                tryPointGetPlanHandlePart ctx tblName tbl dbName schema names pairs
                  partitionDef pairIdx isTableDual check
where
  /-- The tail of `tryPointGetPlan` from `findPKHandle` on. -/
  tryPointGetPlanHandlePart (ctx : PlanCtx) (tblName : TableName) (tbl : TableInfo)
      (dbName : String) (schema : List ColumnInfo) (names : List String)
      (pairs : List NVPair) (partitionDef : Option PartitionDefinition)
      (pairIdx : Nat) (isTableDual check : Bool) : Option PointGetPlan :=
    let fk := findPKHandle tbl pairs
    match fk.1 with
    | some handlePair =>
        if !handlePair.value.isNull && pairs.length = 1 &&
            indexIsAvailableByHints none tblName.indexHints then
          if isTableDual then
            some { (newPointGetPlan ctx.lockWaitTimeout tblName.schemaName schema tbl
              names) with isTableDual := true }
          else
            some { (newPointGetPlan ctx.lockWaitTimeout dbName schema tbl names) with
              handle := some handlePair.value.getInt64,
              unsignedHandle := (match fk.2 with
                                 | some (.tpInt signed _) => !signed
                                 | _ => false),
              handleFieldType := fk.2,
              partitionDef := partitionDef }
        else if !handlePair.value.isNull then none
        else
          checkTblIndexForPointPlan ctx tblName schema names pairs partitionDef pairIdx
            false isTableDual check
    | none =>
        checkTblIndexForPointPlan ctx tblName schema names pairs partitionDef pairIdx
          false isTableDual check

/-!
## Batch point-get plan construction
-/

/-- `BatchPointGetPlan` restricted to the fields the claims inspect. -/
structure BatchPointGetPlan where
  dbName : String := ""
  tblInfo : TableInfo
  indexInfo : Option IndexInfo := none
  handles : List Int := []
  handleType : Option FieldTp := none
  indexValues : List (List Datum) := []
  indexColTypes : List FieldTp := []
  partitionColPos : Int := 0
  partitionDefs : List PartitionDefinition := []
  keepOrder : Bool := false
  desc : Bool := false
  lock : Bool := false
  lockWaitTime : Int := 0

/-- Insert-or-replace into the `pos2PartitionDefinition` map (a Go map keyed
by partition position). -/
def posMapInsert (m : List (Int × PartitionDefinition)) (k : Int)
    (v : PartitionDefinition) : List (Int × PartitionDefinition) :=
  if m.any (fun e => e.1 == k) then
    m.map (fun e => if e.1 == k then (k, v) else e)
  else m ++ [(k, v)]

/-- Insertion into a sorted integer list (used to model `sort.Ints`). -/
def insertSorted (k : Int) : List Int → List Int
  | [] => [k]
  | a :: rest => if k ≤ a then k :: a :: rest else a :: insertSorted k rest

/-- Insertion sort on integers (structural, models `sort.Ints`). -/
def sortInts : List Int → List Int
  | [] => []
  | a :: rest => insertSorted a (sortInts rest)

/-- Collect the map's definitions in ascending key order (the
`posArr` / `sort.Ints` part of `newBatchPointGetPlan`). -/
def posMapSortedDefs (m : List (Int × PartitionDefinition)) :
    List PartitionDefinition :=
  ((sortInts (m.map (fun e => e.1))).filterMap
    (fun k => (m.find? (fun e => e.1 == k)).map (fun e => e.2)))

/-- Per-item handle extraction of the `handleCol != nil` loop of
`newBatchPointGetPlan`: unwrap parentheses, accept only literals/evaluated
parameters, reject NULL, and validate via `getPointGetValue`.  Returns the
converted datum (from which both the handle and the partition-pruning pair
are built). -/
def batchHandleItem (handleCol : ColumnInfo) (item : Expr) : Option Datum :=
  let item := match item with
    | .paren e => e
    | e => e
  match item with
  | .val d => if d.isNull then none else getPointGetValue handleCol d
  | _ => none

/-- The `handleCol != nil` loop of `newBatchPointGetPlan`, threading the
handle list and the position-to-partition map. -/
def batchHandleLoop (tbl : TableInfo) (handleCol : ColumnInfo) :
    List Expr → Option (List Int × List (Int × PartitionDefinition))
  | [] => some ([], [])
  | item :: rest =>
      match batchHandleItem handleCol item with
      | none => none
      | some intDatum =>
          let pairs : List NVPair := [⟨handleCol.name, handleCol.ftype, intDatum⟩]
          match batchHandleLoop tbl handleCol rest with
          | none => none
          | some (hs, m) =>
              if tbl.partition.isSome then
                match getPartitionDef tbl pairs with
                | (_, _, _, true) => none
                | (some def0, _, pos, false) =>
                    some (intDatum.getInt64 :: hs, posMapInsert m pos def0)
                | (none, _, _, false) => some (intDatum.getInt64 :: hs, m)
              else some (intDatum.getInt64 :: hs, m)

/-- `permutations` computation inside the unique-index matching loop: the
position of each where-column inside the index's column list. -/
def permsFor (idx : IndexInfo) (whereColNames : List String) : Option (List Nat) :=
  whereColNames.mapM (fun cn => idx.columns.findIdx? (fun c => c.name == cn))

/-- The unique-index matching loop of `newBatchPointGetPlan`. -/
def findMatchIdx (whereColNames : List String) (indexHints : List IndexHint) :
    List IndexInfo → Option (IndexInfo × List Nat)
  | [] => none
  | idxInfo :: rest =>
      if !idxInfo.unique || !idxInfo.statePublic || idxInfo.invisible ||
          idxInfo.mvIndex || !indexIsAvailableByHints (some idxInfo) indexHints then
        findMatchIdx whereColNames indexHints rest
      else if idxInfo.columns.length ≠ whereColNames.length ||
          idxInfo.hasPrefixIndex then
        findMatchIdx whereColNames indexHints rest
      else
        match permsFor idxInfo whereColNames with
        | some perms => some (idxInfo, perms)
        | none => findMatchIdx whereColNames indexHints rest

/-- Scatter `assigns = (permuted position, datum)` into a fresh datum slice
of length `n` (Go's `values[permIndex] = ...` writes; later writes win). -/
def placeByPerm (n : Nat) (assigns : List (Nat × Datum)) : List Datum :=
  (List.range n).map
    (fun j => (((assigns.reverse.find? (fun a => a.1 == j)).map (fun a => a.2)).getD .dnull))

/-- Per-item value extraction of the unique-index loop of
`newBatchPointGetPlan`.  Returns the datum row (in index-column order) and
the name-value pairs used for partition pruning.  As in the source, the
row-expression case stores the original datums while the single-column case
stores the converted datum. -/
def batchIndexItem (whereColNames : List String) (colInfos : List ColumnInfo)
    (perms : List Nat) (item : Expr) : Option (List Datum × List NVPair) :=
  let item := match item with
    | .paren e => e
    | e => e
  match item with
  | .rowExpr vals =>
      if vals.length ≠ whereColNames.length then none
      else
        let rec go (index : Nat) : List Expr → Option (List (Nat × Datum) × List NVPair)
          | [] => some ([], [])
          | inner :: restInner =>
              match inner with
              | .val d =>
                  match getPointGetValue (colInfos.getD index ⟨"", .tpBit, false, true, false⟩) d with
                  | none => none
                  | some _ =>
                      match go (index + 1) restInner with
                      | none => none
                      | some (as, ps) =>
                          some ((perms.getD index 0, d) :: as,
                            ⟨whereColNames.getD index "", .tpBit, d⟩ :: ps)
              | _ => none
        match go 0 vals with
        | none => none
        | some (assigns, pairs) => some (placeByPerm whereColNames.length assigns, pairs)
  | .val d =>
      if whereColNames.length ≠ 1 then none
      else
        match getPointGetValue (colInfos.getD 0 ⟨"", .tpBit, false, true, false⟩) d with
        | none => none
        | some dval => some ([dval], [⟨whereColNames.getD 0 "", .tpBit, dval⟩])
  | _ => none

/-- The unique-index item loop of `newBatchPointGetPlan`. -/
def batchIndexLoop (tbl : TableInfo) (whereColNames : List String)
    (colInfos : List ColumnInfo) (perms : List Nat) :
    List Expr → Option (List (List Datum) × List (Int × PartitionDefinition))
  | [] => some ([], [])
  | item :: rest =>
      match batchIndexItem whereColNames colInfos perms item with
      | none => none
      | some (values, pairs) =>
          match batchIndexLoop tbl whereColNames colInfos perms rest with
          | none => none
          | some (vs, m) =>
              if tbl.partition.isSome then
                match getPartitionDef tbl pairs with
                | (_, _, _, true) => none
                | (some def0, _, pos, false) => some (values :: vs, posMapInsert m pos def0)
                | (none, _, _, false) => some (values :: vs, m)
              else some (values :: vs, m)

/-- `getColumnPosInIndex` (the source panics when a non-global unique index
does not contain the partition column; the panic is modelled as a resolution
error, unreachable for the well-formed metadata the theorems quantify
over). -/
def getColumnPosInIndex (idx : IndexInfo) (colName : Option String) : Except Unit Int :=
  match colName with
  | none => .ok 0
  | some cn =>
      match idx.columns.findIdx? (fun c => c.name == cn) with
      | some i => .ok (Int.ofNat i)
      | none => if idx.global then .ok (-1) else .error ()

/-- `getPartitionColumnPos`. -/
def getPartitionColumnPos (idx : IndexInfo) (partitionExpr : Option PartExprModel)
    (tbl : TableInfo) : Except Unit Int :=
  match partitionExpr with
  | none => .ok 0
  | some pe =>
      match tbl.partition with
      | none => .ok 0
      | some pi =>
          match pi.tp with
          | .hash =>
              match pe.origExprCol with
              | some cn => getColumnPosInIndex idx (some cn)
              | none => .error ()
          | .keyTp =>
              if pe.keyPartCols.length ≠ 1 then .error ()
              else getColumnPosInIndex idx (pe.keyPartCols.getD 0 "")
          | .range =>
              match pe.exprCol with
              | some cn =>
                  if pi.columns.length = 0 then getColumnPosInIndex idx (some cn)
                  else .error ()
              | none => .error ()
          | .list =>
              match pe.exprCol with
              | some cn =>
                  if pe.listColPrunesNil then getColumnPosInIndex idx (some cn)
                  else .error ()
              | none => .error ()

/-- The `colInfos` slice of `newBatchPointGetPlan`: the table column for
each where-column name (a missing column leaves the zero value, as in Go). -/
def batchColInfos (tbl : TableInfo) (whereColNames : List String) :
    List ColumnInfo :=
  whereColNames.map
    (fun cn => (tbl.columns.find? (fun c => c.name == cn)).getD
      ⟨"", .tpBit, false, true, false⟩)

/-- `newBatchPointGetPlan`. -/
def newBatchPointGetPlan (patternInList : List Expr)
    (handleCol : Option ColumnInfo) (tbl : TableInfo)
    (_schemaNames : List ColumnInfo × List String) (whereColNames : List String)
    (indexHints : List IndexHint) : Option BatchPointGetPlan :=
  -- partitioned-table precondition: a partition expression whose `Expr` is a
  -- plain column
  if tbl.partition.isSome &&
      !(match tbl.partitionExpr with
        | none => false
        | some pe => pe.exprCol.isSome) then none
  else
    match handleCol with
    | some hc =>
        match batchHandleLoop tbl hc patternInList with
        | none => none
        | some (handles, m) =>
            some { tblInfo := tbl, handles := handles, handleType := some hc.ftype,
                   partitionDefs := posMapSortedDefs m }
    | none =>
        let colInfos := batchColInfos tbl whereColNames
        match findMatchIdx whereColNames indexHints tbl.indices with
        | none => none
        | some (matchIdxInfo, perms) =>
            match getPartitionColumnPos matchIdxInfo tbl.partitionExpr tbl with
            | .error _ => none
            | .ok pos =>
                match batchIndexLoop tbl whereColNames colInfos perms patternInList with
                | none => none
                | some (indexValues, m) =>
                    some { tblInfo := tbl, indexInfo := some matchIdxInfo,
                           indexValues := indexValues, partitionColPos := pos,
                           partitionDefs := posMapSortedDefs m }

/-- `tryWhereIn2BatchPointGet`. -/
def tryWhereIn2BatchPointGet (ctx : PlanCtx) (selStmt : SelectStmt) :
    Option BatchPointGetPlan :=
  if selStmt.hasOrderBy || selStmt.hasGroupBy || selStmt.limit.isSome ||
      selStmt.hasHaving || selStmt.hasDistinct || selStmt.windowSpecCount > 0 then
    none
  else
    match selStmt.whereExpr with
    | some (.patternIn inExpr isNot list) =>
        if isNot || list.length < 1 then none
        else
          match getSingleTableNameAndAlias selStmt.fromClause with
          | none => none
          | some (tblName, tblAlias) =>
            match tblName.tableInfo with
            | none => none
            | some tbl =>
              if !tblName.partitionNames.isEmpty then none
              else if tbl.columns.any (fun c => c.isGenerated || !c.statePublic) then none
              else
                match buildSchemaFromFields tbl tblAlias selStmt.fields with
                | none => none
                | some schemaNames =>
                  let colExpr := match inExpr with
                    | .paren e => e
                    | e => e
                  let colsRes : Option (Option ColumnInfo × List String) :=
                    match colExpr with
                    | .colRef q n =>
                        if q ≠ "" ∧ q ≠ tblAlias then none
                        else
                          let handleCol :=
                            if tbl.pkIsHandle then
                              tbl.columns.find?
                                (fun c => c.hasPriKeyFlag && c.name == n)
                            else none
                          match handleCol with
                          | some hc => some (some hc, [hc.name])
                          | none => some (none, [n])
                    | .rowExpr vals =>
                        let rec goCols : List Expr → Option (List String)
                          | [] => some []
                          | .colRef q n :: rest =>
                              if q ≠ "" ∧ q ≠ tblAlias then none
                              else
                                match goCols rest with
                                | none => none
                                | some ns => some (n :: ns)
                          | _ :: _ => none
                        match goCols vals with
                        | none => none
                        | some ns => some (none, ns)
                    | _ => none
                  match colsRes with
                  | none => none
                  | some (handleCol, whereColNames) =>
                      match newBatchPointGetPlan list handleCol tbl schemaNames
                          whereColNames tblName.indexHints with
                      | none => none
                      | some p =>
                          some { p with dbName :=
                            if tblName.schemaName ≠ "" then tblName.schemaName
                            else ctx.currentDB }
    | _ => none

/-!
## Executor model (`pkg/executor/point_get.go`)

The storage collaborator is modelled per the external-interface contract:
`get(key) -> bytes | NotFound`, `lock(key, waitTimeout, lockOnlyIfExists) ->
(exists, value)` with "read own uncommitted writes first, then pessimistic
lock cache, then snapshot" implemented here in the executor exactly as the
source does.  Every storage interaction is recorded as an `Event` so that
ordering claims can be stated about the trace.
-/

/-- `kv.Handle`: integer handle or common (encoded primary key) handle. -/
inductive Handle where
  | intH (v : Int)
  | common (enc : List Datum)
deriving DecidableEq, Repr

/-- Encoded keys (`tablecodec.EncodeRowKeyWithHandle` /
`tablecodec.EncodeIndexSeekKey` images). -/
inductive EncKey where
  | rowKey (tblID : Int) (h : Handle)
  | idxKey (tblID : Int) (idxID : Int) (vals : List Datum)
deriving DecidableEq, Repr

/-- A `kv.Key`; `none` models a nil/zero-length byte slice. -/
abbrev KvKey := Option EncKey

/-- The payload of a unique-index entry: the row handle plus, for global
indexes, the partition-id segment (`tablecodec.SplitIndexValue`). -/
structure IdxEntry where
  handle : Handle
  partID : Option Int := none
deriving DecidableEq, Repr

/-- Stored values: a unique-index entry or opaque row bytes. -/
inductive StoreVal where
  | idxEntry (e : IdxEntry)
  | rowData (payload : Nat)
deriving DecidableEq, Repr

/-- Storage interaction events, in program order. -/
inductive Event where
  | lockKey (k : EncKey) (onlyIfExists : Bool)
  | readMemBuffer (k : EncKey)
  | readLockCache (k : EncKey)
  | readStoreCache (k : EncKey)
  | readSnapshot (k : EncKey)
deriving DecidableEq, Repr

/-- A buffer that may store explicitly-empty values (txn mem-buffer and the
pessimistic-lock cache): `none` in the range models zero-length bytes. -/
abbrev KvMap := List (EncKey × Option StoreVal)

/-- Snapshot-like maps (absence means `NotFound`). -/
abbrev SnapMap := List (EncKey × StoreVal)

def kvLookup (m : KvMap) (k : EncKey) : Option (Option StoreVal) :=
  (m.find? (fun e => e.1 == k)).map (fun e => e.2)

def kvInsert (m : KvMap) (k : EncKey) (v : Option StoreVal) : KvMap :=
  if m.any (fun e => e.1 == k) then
    m.map (fun e => if e.1 == k then (k, v) else e)
  else m ++ [(k, v)]

def snapLookup (m : SnapMap) (k : EncKey) : Option StoreVal :=
  (m.find? (fun e => e.1 == k)).map (fun e => e.2)

/-- The transaction handle (`kv.Transaction`) slice the executor reads. -/
structure TxnState where
  valid : Bool := false
  readOnly : Bool := false
  memBuffer : KvMap := []

/-- The session-variable slice the executor reads and writes. -/
structure ExecSessVars where
  isPessimisticReadConsistency : Bool := false
  weakConsistency : Bool := false
  enablePointGetCache : Bool := false
  lockCache : KvMap := []

/-- `PointGetExecutor` state. -/
structure PointGetExec where
  tblInfo : TableInfo
  handle : Option Handle := none
  idxInfo : Option IndexInfo := none
  partitionDef : Option PartitionDefinition := none
  idxKey : KvKey := none
  handleVal : Option StoreVal := none
  idxVals : List Datum := []
  txn : TxnState := {}
  snapshot : SnapMap := []
  storeMemCache : SnapMap := []
  done : Bool := false
  lock : Bool := false
  lockWaitTime : Int := 0

/-- `PointGetExecutor.Init`: populate the executor from the plan; a
temporary table forces the lock flag off and the wait time to zero. -/
def initExec (p : PointGetPlan) (txn : TxnState) (snapshot storeMemCache : SnapMap) :
    PointGetExec :=
  { tblInfo := p.tblInfo,
    handle := p.handle.map Handle.intH,
    idxInfo := p.indexInfo,
    idxVals := p.indexValues,
    done := false,
    lock := if !p.tblInfo.tempTable then p.lock else false,
    lockWaitTime := if !p.tblInfo.tempTable then p.lockWaitTime else 0,
    partitionDef := p.partitionDef,
    txn := txn, snapshot := snapshot, storeMemCache := storeMemCache }

/-- Modelled from the spec: `isCommonHandleRead` is defined in a sibling
executor file outside the excerpt; per the spec's common-handle treatment it
holds when the table uses a common (clustered, non-integer) handle and the
index is the primary index. -/
def isCommonHandleRead (tbl : TableInfo) (idx : IndexInfo) : Bool :=
  tbl.isCommonHandle && idx.primary

/-- The per-column cast loop of `EncodeUniqueIndexValuesForKey` (`i` is the
index-column position). -/
def encodeVals (tbl : TableInfo) (idx : IndexInfo) : Nat → List Datum → Except Err (List Datum)
  | _, [] => .ok []
  | i, d :: rest =>
      let colInfo := tbl.columns.getD ((idx.columns.getD i ⟨"", none, 0⟩).offset)
        ⟨"", .tpBit, false, true, false⟩
      match colInfo.ftype with
      | .tpString _ =>
          -- CHAR/VARCHAR columns: `ToString` instead of `CastValue`
          let d2 : Datum := match d with
            | .dstr s => .dstr s
            | .dint v => .dstr (toString v)
            | .dnull => .dstr ""
          (encodeVals tbl idx (i + 1) rest).map (fun vs => d2 :: vs)
      | _ =>
          let conv := convertTo d colInfo.ftype
          match conv.2 with
          | some .overflow => .error .notExist
          | some .dataTooLong => .error .notExist
          | some .truncated => .error .notExist
          | some .truncatedWrongVal => .error .notExist
          | some e => .error e
          | none => (encodeVals tbl idx (i + 1) rest).map (fun vs => conv.1 :: vs)

/-- `EncodeUniqueIndexValuesForKey`. -/
def encodeUniqueIndexValuesForKey (tbl : TableInfo) (idx : IndexInfo)
    (idxVals : List Datum) : Except Err (List Datum) :=
  encodeVals tbl idx 0 idxVals

/-- `EncodeUniqueIndexKey`. -/
def encodeUniqueIndexKey (tbl : TableInfo) (idx : IndexInfo)
    (idxVals : List Datum) (tID : Int) : Except Err EncKey :=
  (encodeUniqueIndexValuesForKey tbl idx idxVals).map
    (fun vs => .idxKey tID idx.id vs)

/-- `tablecodec.DecodeHandleInUniqueIndexValue`. -/
def decodeHandleInUniqueIndexValue : StoreVal → Except Err Handle
  | .idxEntry en => .ok en.handle
  | .rowData _ => .error .other

/-- The per-key result the lock collaborator reports back (`kv.ReturnedValue`
plus whether this key was actually locked). -/
structure LockCtxVal where
  found : Bool
  value : Option StoreVal
  alreadyLocked : Bool := false
  locked : Bool := true
deriving DecidableEq, Repr

/-- Modelled from the spec: `doLockKeys` drives the external pessimistic-lock
collaborator `lock(key, waitTimeout, lockOnlyIfExists) -> (exists, value)`.
With `lockOnlyIfExists` set, a key that does not exist is not locked (its
fetched value is reported back unlocked); otherwise the key is always
locked. -/
def doLockKeys (snap : SnapMap) (lockOnlyIfExists : Bool) (k : EncKey) :
    List (EncKey × LockCtxVal) × List Event :=
  let v := snapLookup snap k
  let locked := !lockOnlyIfExists || v.isSome
  ([(k, ⟨v.isSome, v, false, locked⟩)],
   if locked then [.lockKey k lockOnlyIfExists] else [])

/-- `PointGetExecutor.get`: txn mem-buffer first, then (when locking) the
pessimistic-lock cache, then the point-get table cache / snapshot. -/
def get (sv : ExecSessVars) (e : PointGetExec) (key : KvKey) :
    Except Err (Option StoreVal) × List Event :=
  match key with
  | none => (.error .notExist, [])
  | some k =>
    let snapPath : Except Err (Option StoreVal) × List Event :=
      if e.tblInfo.tableLockRead && sv.enablePointGetCache then
        -- cacheDB.UnionGet: store mem-cache first, snapshot on a miss
        match snapLookup e.storeMemCache k with
        | some v => (.ok (some v), [.readStoreCache k])
        | none =>
            match snapLookup e.snapshot k with
            | some v => (.ok (some v), [.readStoreCache k, .readSnapshot k])
            | none => (.error .notExist, [.readStoreCache k, .readSnapshot k])
      else
        match snapLookup e.snapshot k with
        | some v => (.ok (some v), [.readSnapshot k])
        | none => (.error .notExist, [.readSnapshot k])
    if e.txn.valid && !e.txn.readOnly then
      match kvLookup e.txn.memBuffer k with
      | some v => (.ok v, [.readMemBuffer k])
      | none =>
          -- mem-buffer reported NotFound: check the lock cache when locking
          if e.lock then
            match kvLookup sv.lockCache k with
            | some v => (.ok v, [.readMemBuffer k, .readLockCache k])
            | none => (snapPath.1, [.readMemBuffer k, .readLockCache k] ++ snapPath.2)
          else (snapPath.1, [.readMemBuffer k] ++ snapPath.2)
    else snapPath

/-- `PointGetExecutor.getValueFromLockCtx`. -/
def getValueFromLockCtx (sv : ExecSessVars) (e : PointGetExec)
    (vals : List (EncKey × LockCtxVal)) (k : EncKey) :
    Except Err (Option StoreVal) × List Event :=
  match vals.find? (fun entry => entry.1 == k) with
  | some entry =>
      if entry.2.found then (.ok entry.2.value, [])
      else if entry.2.alreadyLocked then
        match get sv e (some k) with
        | (.error .notExist, evs) => (.ok none, evs)
        | (.error err, evs) => (.error err, evs)
        | (.ok v, evs) => (.ok v, evs)
      else (.ok none, [])
  | none => (.ok none, [])

/-- `PointGetExecutor.lockKeyBase` (`lockKeyIfNeeded` is
`lockKeyBase _ false`, `lockKeyIfExists` is `lockKeyBase _ true`). -/
def lockKeyBase (sv : ExecSessVars) (e : PointGetExec) (key : KvKey)
    (lockOnlyIfExists : Bool) :
    Except Err (Option StoreVal) × ExecSessVars × List Event :=
  match key with
  | none => (.ok none, sv, [])
  | some k =>
    if e.lock then
      let dl := doLockKeys e.snapshot lockOnlyIfExists k
      -- IterateValuesNotLocked: cache values fetched but not locked
      let cache1 :=
        dl.1.foldl (fun c kv => if kv.2.locked then c else kvInsert c kv.1 kv.2.value)
          sv.lockCache
      let sv1 := { sv with lockCache := cache1 }
      -- cache the index entry once it is known
      let sv2 :=
        if e.handleVal.isSome then
          match e.idxKey with
          | some ik => { sv1 with lockCache := kvInsert sv1.lockCache ik e.handleVal }
          | none => sv1
        else sv1
      if lockOnlyIfExists then
        let r := getValueFromLockCtx sv2 e dl.1 k
        (r.1, sv2, dl.2 ++ r.2)
      else (.ok none, sv2, dl.2)
    else (.ok none, sv, [])

/-- The recurring `e.get` call pattern of the source that tolerates
`kv.ErrNotExist` (treating it as an empty value). -/
def getTolerant (sv : ExecSessVars) (e : PointGetExec) (key : KvKey) :
    Except Err (Option StoreVal) × List Event :=
  match get sv e key with
  | (.error .notExist, evs) => (.ok none, evs)
  | (.error err, evs) => (.error err, evs)
  | (.ok v, evs) => (.ok v, evs)

/-- `PointGetExecutor.getAndLock`. -/
def getAndLock (sv : ExecSessVars) (e : PointGetExec) (key : KvKey) :
    Except Err (Option StoreVal) × ExecSessVars × List Event :=
  if sv.isPessimisticReadConsistency then
    -- only lock existing keys in RC isolation
    if e.lock then
      lockKeyBase sv e key true
    else
      let r := getTolerant sv e key
      (r.1, sv, r.2)
  else
    -- lock the key before get in RR isolation
    match lockKeyBase sv e key false with
    | (.error err, sv1, evs) => (.error err, sv1, evs)
    | (.ok _, sv1, evs) =>
        let r := getTolerant sv1 e key
        (r.1, sv1, evs ++ r.2)

/-- Result of one `Next` call: the chunk contents (`none` = empty chunk),
the executor and session state after the call, and the storage trace.  Row
decoding and virtual-column filling are row-codec collaborators modelled as
the identity on the fetched value. -/
structure NextResult where
  res : Except Err (Option StoreVal)
  exec : PointGetExec
  sess : ExecSessVars
  events : List Event

/-- The tail of `Next` from `EncodeRowKeyWithHandle` to the end: the final
row read, the not-found inconsistency report, and row decoding. -/
def nextRowRead (sv : ExecSessVars) (e : PointGetExec) (tblID : Int) : NextResult :=
  match e.handle with
  | none =>
      -- a nil kv.Handle would make EncodeRowKeyWithHandle panic in Go;
      -- unreachable for well-formed plans
      ⟨.error .other, e, sv, []⟩
  | some h =>
      let key : EncKey := .rowKey tblID h
      match getAndLock sv e (some key) with
      | (.error err, sv1, evs) => ⟨.error err, e, sv1, evs⟩
      | (.ok none, sv1, evs) =>
          if e.idxInfo.isSome &&
              !(match e.idxInfo with
                | some idx => isCommonHandleRead e.tblInfo idx
                | none => false) &&
              !sv.weakConsistency then
            ⟨.error .inconsistent, e, sv1, evs⟩
          else ⟨.ok none, e, sv1, evs⟩
      | (.ok (some v), sv1, evs) => ⟨.ok (some v), e, sv1, evs⟩

/-- The index-key read of `Next`: lock-then-read when non-existent index
keys are locked too (non-RC), otherwise lock-only-if-exists (when locking)
or a plain read. -/
def idxKeyReadStep (sv : ExecSessVars) (e : PointGetExec) :
    Except Err (Option StoreVal) × ExecSessVars × List Event :=
  let lockNonExistIdxKey := !sv.isPessimisticReadConsistency
  if lockNonExistIdxKey then
    -- non-exist keys are locked too: lock before read
    match lockKeyBase sv e e.idxKey false with
    | (.error err, sv1, evs) => (.error err, sv1, evs)
    | (.ok _, sv1, evs) =>
        let r := getTolerant sv1 e e.idxKey
        (r.1, sv1, evs ++ r.2)
  else
    if e.lock then
      lockKeyBase sv e e.idxKey true
    else
      let r := getTolerant sv e e.idxKey
      (r.1, sv, r.2)

/-- The non-common-handle unique-index branch of `Next`. -/
def nextIdxNonCommon (sv : ExecSessVars) (e : PointGetExec) (idx : IndexInfo)
    (tblID : Int) : NextResult :=
  let encRes := encodeUniqueIndexKey e.tblInfo idx e.idxVals tblID
  match encRes with
  | .error err =>
      if err ≠ .notExist then ⟨.error err, e, sv, []⟩
      else
        -- idxKey stays nil; the reads below then report not-exist
        nextIdxWithKey sv { e with idxKey := none } idx tblID
  | .ok k => nextIdxWithKey sv { e with idxKey := some k } idx tblID
where
  /-- From `lockNonExistIdxKey` to the handle decode and the row read. -/
  nextIdxWithKey (sv : ExecSessVars) (e : PointGetExec) (idx : IndexInfo)
      (tblID : Int) : NextResult :=
    match idxKeyReadStep sv e with
    | (.error err, sv1, evs) => ⟨.error err, e, sv1, evs⟩
    | (.ok hv, sv1, evs) =>
        let e1 := { e with handleVal := hv }
        match hv with
        | none => ⟨.ok none, e1, sv1, evs⟩
        | some stored =>
            match decodeHandleInUniqueIndexValue stored with
            | .error err => ⟨.error err, e1, sv1, evs⟩
            | .ok h =>
                let e2 := { e1 with handle := some h }
                if idx.global then
                  match stored with
                  | .idxEntry en =>
                      match en.partID with
                      | none => ⟨.error .other, e2, sv1, evs⟩
                      | some pid =>
                          let rr := nextRowRead sv1 e2 pid
                          ⟨rr.res, rr.exec, rr.sess, evs ++ rr.events⟩
                  | .rowData _ => ⟨.error .other, e2, sv1, evs⟩
                else
                  let rr := nextRowRead sv1 e2 tblID
                  ⟨rr.res, rr.exec, rr.sess, evs ++ rr.events⟩

/-- `PointGetExecutor.Next`. -/
def next (sv : ExecSessVars) (e : PointGetExec) : NextResult :=
  if e.done then ⟨.ok none, e, sv, []⟩
  else
    let e0 := { e with done := true }
    let tblID := match e0.partitionDef with
      | some def0 => def0.id
      | none => e0.tblInfo.id
    match e0.idxInfo with
    | some idx =>
        if isCommonHandleRead e0.tblInfo idx then
          match encodeUniqueIndexValuesForKey e0.tblInfo idx e0.idxVals with
          | .error .notExist => ⟨.ok none, e0, sv, []⟩
          | .error err => ⟨.error err, e0, sv, []⟩
          | .ok handleBytes =>
              nextRowRead sv { e0 with handle := some (.common handleBytes) } tblID
        else nextIdxNonCommon sv e0 idx tblID
    | none => nextRowRead sv e0 tblID

/-!
## Trace predicates used by the theorems
-/

/-- Whether an event is a lock acquisition. -/
def Event.isLock : Event → Bool
  | .lockKey _ _ => true
  | _ => false

/-- The key an event concerns. -/
def Event.keyOf : Event → EncKey
  | .lockKey k _ => k
  | .readMemBuffer k => k
  | .readLockCache k => k
  | .readStoreCache k => k
  | .readSnapshot k => k

/-- Scan a trace maintaining the set of keys already read; a lock event on a
key that was read earlier fails the check ("no lock step after the read"). -/
def noLockAfterRead (seen : List EncKey) : List Event → Bool
  | [] => true
  | ev :: rest =>
      if ev.isLock then
        !seen.contains ev.keyOf && noLockAfterRead seen rest
      else noLockAfterRead (ev.keyOf :: seen) rest

/-- The keys read by a trace, newest first, on top of `seen`. -/
def seenAfter (seen : List EncKey) (tr : List Event) : List EncKey :=
  tr.foldl (fun s ev => if ev.isLock then s else ev.keyOf :: s) seen

/-- A trace consisting of at most one lock on `k` followed only by reads of
`k` (the shape of one lock-then-read phase). -/
def PhaseShape (k : EncKey) (tr : List Event) : Prop :=
  ∃ tr', (tr = tr' ∨ ∃ b, tr = .lockKey k b :: tr') ∧
    ∀ ev ∈ tr', ev.isLock = false ∧ ev.keyOf = k

/-- The qualification predicate of the unique-index scanning loop (hints,
uniqueness, visibility, schema state, multi-valued, and the exact-match
requirement of `getIndexValues`). -/
def idxQualifies (hints : List IndexHint) (pairs : List NVPair)
    (idx : IndexInfo) : Bool :=
  idx.unique && idx.statePublic && !idx.invisible && !idx.mvIndex &&
    indexIsAvailableByHints (some idx) hints && (getIndexValues idx pairs).isSome

/-!
## Concrete fixtures used by witnesses and counterexamples
-/

/-- `t(a bigint primary key, b bigint)` with the primary key as row handle. -/
def sampleTbl : TableInfo :=
  { id := 1, name := "t", pkIsHandle := true,
    columns := [{ name := "a", ftype := .tpInt true 64, hasPriKeyFlag := true },
                { name := "b", ftype := .tpInt true 64 }] }

/-- `SELECT a FROM t WHERE a = 1` plus toggles for the clause flags. -/
def sampleStmt (gb ob : Bool) : SelectStmt :=
  { fromClause := some (.singleTable { name := "t", tableInfo := some sampleTbl } ""),
    whereExpr := some (.eqExpr (.colRef "" "a") (.val (.dint 1))),
    fields := [.colField "" "a" ""],
    hasGroupBy := gb, hasOrderBy := ob }

/-- `t2(a int primary key)` (32-bit column, so `2^40` overflows). -/
def overflowTbl : TableInfo :=
  { id := 2, name := "t2", pkIsHandle := true,
    columns := [{ name := "a", ftype := .tpInt true 32, hasPriKeyFlag := true }] }

/-- `SELECT * FROM t2 WHERE a = 2^40`. -/
def overflowStmt : SelectStmt :=
  { fromClause := some (.singleTable { name := "t2", tableInfo := some overflowTbl } ""),
    whereExpr := some (.eqExpr (.colRef "" "a") (.val (.dint (2 ^ 40)))),
    fields := [.wildcard ""] }

/-- HASH partitioning metadata with four partitions `p0..p3`. -/
def hashPartInfo : PartitionInfo :=
  { tp := .hash, num := 4,
    definitions := [⟨101, "p0"⟩, ⟨102, "p1"⟩, ⟨103, "p2"⟩, ⟨104, "p3"⟩] }

/-- `t3(a int primary key) partition by hash(a) partitions 4`. -/
def hashTbl : TableInfo :=
  { id := 3, name := "t3", pkIsHandle := true,
    columns := [{ name := "a", ftype := .tpInt true 32, hasPriKeyFlag := true }],
    partition := some hashPartInfo,
    partitionExpr := some { origExprCol := some "a", exprCol := some "a" } }

/-- `SELECT * FROM t3 PARTITION (pnames) WHERE a = v`. -/
def hashStmt (pnames : List String) (v : Int) : SelectStmt :=
  { fromClause := some (.singleTable
      { name := "t3", tableInfo := some hashTbl, partitionNames := pnames } ""),
    whereExpr := some (.eqExpr (.colRef "" "a") (.val (.dint v))),
    fields := [.wildcard ""] }

/-- `SELECT * FROM t WHERE a IN (1, 2, 1)`. -/
def batchStmt : SelectStmt :=
  { fromClause := some (.singleTable { name := "t", tableInfo := some sampleTbl } ""),
    whereExpr := some (.patternIn (.colRef "" "a") false
      [.val (.dint 1), .val (.dint 2), .val (.dint 1)]),
    fields := [.wildcard ""] }

/-- `t6(a bigint, b bigint, unique key uk(a, b))`. -/
def batchIdxTbl : TableInfo :=
  { id := 6, name := "t6",
    columns := [{ name := "a", ftype := .tpInt true 64 },
                { name := "b", ftype := .tpInt true 64 }],
    indices := [{ name := "uk", id := 1, unique := true,
                  columns := [⟨"a", none, 0⟩, ⟨"b", none, 1⟩] }] }

/-- A single-column unique index `uk(b)` with id 9 over column offset 1. -/
def sampleIdx : IndexInfo :=
  { name := "uk", id := 9, unique := true, columns := [⟨"b", none, 1⟩] }

/-- `t7(a bigint primary key, b bigint, unique key uk(b))`. -/
def idxTbl : TableInfo :=
  { id := 7, name := "t7", pkIsHandle := true,
    columns := [{ name := "a", ftype := .tpInt true 64, hasPriKeyFlag := true },
                { name := "b", ftype := .tpInt true 64 }],
    indices := [sampleIdx] }

/-- The encoded seek key of `uk(b) = 7` on `t7`. -/
def sampleIdxKey : EncKey := .idxKey 7 9 [.dint 7]

/-- An executor over `t7` resolving `b = 7` through `uk` against `snap`. -/
def idxExec (snap : SnapMap) : PointGetExec :=
  { tblInfo := idxTbl, idxInfo := some sampleIdx, idxVals := [.dint 7],
    snapshot := snap }

/-- A snapshot holding a stale index entry (handle 9) with no matching row. -/
def staleSnap : SnapMap := [(sampleIdxKey, .idxEntry ⟨.intH 9, none⟩)]

/-- A snapshot holding the index entry and the matching row. -/
def okSnap : SnapMap :=
  [(sampleIdxKey, .idxEntry ⟨.intH 9, none⟩), (.rowKey 7 (.intH 9), .rowData 42)]

/-- A valid read-write transaction whose mem-buffer holds the sample key. -/
def memBufTxn : TxnState :=
  { valid := true, readOnly := false,
    memBuffer := [(sampleIdxKey, some (.rowData 4))] }

/-- A valid read-write transaction with an empty mem-buffer. -/
def emptyBufTxn : TxnState := { valid := true, readOnly := false }

/-- Session vars whose pessimistic-lock cache holds the sample key. -/
def lockCacheSv : ExecSessVars :=
  { lockCache := [(sampleIdxKey, some (.rowData 5))] }

/-- A locking plan over a temporary-table variant of `sampleTbl`. -/
def tempPlan : PointGetPlan :=
  { tblInfo := { sampleTbl with tempTable := true }, handle := some 1,
    lock := true, lockWaitTime := 100 }

/-- A non-unique index on `b`, declared before `sampleIdx`. -/
def nonUniqueIdx : IndexInfo :=
  { name := "nk", id := 8, unique := false, columns := [⟨"b", none, 1⟩] }

/-- `idxTbl` with a non-unique index declared ahead of the unique one. -/
def idxTblWithBad : TableInfo := { idxTbl with indices := [nonUniqueIdx, sampleIdx] }

/-- The extracted pair set `b = 7`. -/
def c5Pairs : List NVPair := [⟨"b", .tpInt true 64, .dint 7⟩]

/-- The table-name node referencing `idxTblWithBad`, without hints. -/
def c5TblName : TableName := { name := "t7", tableInfo := some idxTblWithBad }

/-- The plan `checkTblIndexForPointPlan` builds for `c5Pairs` on
`idxTblWithBad`. -/
def c5Plan : PointGetPlan :=
  { (newPointGetPlan 0 "" [] idxTblWithBad []) with
    indexInfo := some sampleIdx, indexValues := [.dint 7],
    colsFieldType := [.tpInt true 64] }

/-- The IN-list `(1, 2, 1)` with a duplicate element. -/
def c8List : List Expr := [.val (.dint 1), .val (.dint 2), .val (.dint 1)]

/-- The primary-key handle column of `sampleTbl`. -/
def pkColA : ColumnInfo :=
  { name := "a", ftype := .tpInt true 64, hasPriKeyFlag := true }

/-- The batch plan built for `a IN (1, 2, 1)` on `sampleTbl`. -/
def c8Plan : BatchPointGetPlan :=
  { tblInfo := sampleTbl, handles := [1, 2, 1],
    handleType := some (.tpInt true 64) }

/-- A single-column unique index over the 32-bit column `b` (offset 0). -/
def smallIdx : IndexInfo :=
  { name := "ukb", id := 2, unique := true, columns := [⟨"b", none, 0⟩] }

/-- `t8(b int, unique key ukb(b))` — no integer primary-key handle. -/
def smallColTbl : TableInfo :=
  { id := 8, name := "t8",
    columns := [{ name := "b", ftype := .tpInt true 32 }],
    indices := [smallIdx] }

/-- `SELECT * FROM t8 WHERE b = 2^40` (overflows the int column). -/
def overflowIdxStmt : SelectStmt :=
  { fromClause := some (.singleTable { name := "t8", tableInfo := some smallColTbl } ""),
    whereExpr := some (.eqExpr (.colRef "" "b") (.val (.dint (2 ^ 40)))),
    fields := [.wildcard ""] }

/-- An executor resolving `b = 2^40` through `ukb` on `t8`. -/
def overflowExec : PointGetExec :=
  { tblInfo := smallColTbl, idxInfo := some smallIdx, idxVals := [.dint (2 ^ 40)] }

/-- Every lock event of a trace is a lock-only-if-exists request on a key
present in `snap` (the RC-isolation locking discipline). -/
def RcLockDiscipline (snap : SnapMap) (tr : List Event) : Prop :=
  ∀ ev ∈ tr, ∀ k b, ev = Event.lockKey k b →
    b = true ∧ (snapLookup snap k).isSome = true

/-- The `b = 7` executor over `t7` with the for-update lock flag set. -/
def idxLockExec (snap : SnapMap) : PointGetExec :=
  { tblInfo := idxTbl, idxInfo := some sampleIdx, idxVals := [.dint 7],
    snapshot := snap, lock := true }

/-- RC-isolation session variables. -/
def rcSv : ExecSessVars := { isPessimisticReadConsistency := true }

/-!
## Helper lemmas about the executor state machine
-/

lemma nextRowRead_exec (sv : ExecSessVars) (e : PointGetExec) (tblID : Int) :
    (nextRowRead sv e tblID).exec = e := by
  unfold nextRowRead
  rcases e.handle with _ | h
  · rfl
  · simp only
    rcases getAndLock sv e (some (.rowKey tblID h)) with ⟨res, sv1, evs⟩
    rcases res with err | v
    · rfl
    · rcases v with _ | v
      · simp only [apply_ite NextResult.exec, ite_self]
      · rfl

lemma nextIdxWithKey_exec_done (sv : ExecSessVars) (e : PointGetExec)
    (idx : IndexInfo) (tblID : Int) :
    (nextIdxNonCommon.nextIdxWithKey sv e idx tblID).exec.done = e.done := by
  unfold nextIdxNonCommon.nextIdxWithKey
  dsimp only
  repeat' split
  all_goals simp [nextRowRead_exec]

lemma nextIdxNonCommon_exec_done (sv : ExecSessVars) (e : PointGetExec)
    (idx : IndexInfo) (tblID : Int) :
    (nextIdxNonCommon sv e idx tblID).exec.done = e.done := by
  unfold nextIdxNonCommon
  rcases encodeUniqueIndexKey e.tblInfo idx e.idxVals tblID with err | k
  · simp only
    split
    · rfl
    · exact nextIdxWithKey_exec_done ..
  · exact nextIdxWithKey_exec_done ..

/-- After any `Next` call the executor is marked done. -/
lemma next_exec_done (sv : ExecSessVars) (e : PointGetExec) :
    (next sv e).exec.done = true := by
  unfold next
  by_cases h : e.done = true
  · simp [h]
  · simp only [Bool.not_eq_true] at h
    simp only [h, Bool.false_eq_true, if_false]
    rcases hidx : e.idxInfo with _ | idx
    · simp [hidx, nextRowRead_exec]
    · simp only [hidx]
      split
      · rcases henc : encodeUniqueIndexValuesForKey e.tblInfo idx e.idxVals with err | hb
        · rcases err <;> simp [henc]
        · simp [henc, nextRowRead_exec]
      · rw [nextIdxNonCommon_exec_done]

/-!
## C4 — idempotence of `Next` after the first call
-/

/-- C4: for every opened point-get executor, once `done` is set (which every
call to `Next` establishes), a further call to `Next` returns an empty chunk
and no error, leaves all state untouched, and performs no storage
interaction at all (empty event trace). -/
theorem c4_next_idempotent (sv : ExecSessVars) (e : PointGetExec) :
    (e.done = true → next sv e = ⟨.ok none, e, sv, []⟩) ∧
    (next sv e).exec.done = true :=
  ⟨fun h => by simp [next, h], next_exec_done sv e⟩

/-- C4 witness: a finished executor returns empty with an empty trace. -/
theorem c4_next_idempotent_witness :
    next {} { idxExec staleSnap with done := true } =
      ⟨.ok none, { idxExec staleSnap with done := true }, {}, []⟩ ∧
    (next {} { idxExec staleSnap with done := true }).exec.done = true :=
  ⟨(c4_next_idempotent {} _).1 rfl, (c4_next_idempotent {} _).2⟩

/-!
## C6 — clause-based refusal of the fast path
-/

/-- C6 as amended: `tryPointGetPlan` refuses on HAVING, ORDER BY, and on a
LIMIT clause with count 0, a positive offset, or an evaluation error;
`tryWhereIn2BatchPointGet` additionally refuses on GROUP BY, DISTINCT, any
LIMIT at all, and window specifications.  (GROUP BY and window
specifications do not disqualify the single-row point-get path; see the
counterexample.) -/
theorem c6_clause_refusal (ctx : PlanCtx) (stmt : SelectStmt) (check : Bool) :
    ((stmt.hasHaving = true ∨ stmt.hasOrderBy = true ∨
      (∃ l, stmt.limit = some l ∧ (l.evalErr = true ∨ l.count = 0 ∨ l.offset > 0))) →
        tryPointGetPlan ctx stmt check = none) ∧
    ((stmt.hasOrderBy = true ∨ stmt.hasGroupBy = true ∨ stmt.limit.isSome = true ∨
      stmt.hasHaving = true ∨ stmt.hasDistinct = true ∨ 0 < stmt.windowSpecCount) →
        tryWhereIn2BatchPointGet ctx stmt = none) := by
  constructor
  · rintro (h | h | ⟨l, hl, hcase⟩)
    · simp [tryPointGetPlan, h]
    · simp [tryPointGetPlan, h]
    · unfold tryPointGetPlan
      by_cases h1 : (stmt.hasHaving || stmt.hasOrderBy) = true
      · simp [h1]
      · rcases hcase with h2 | h2 | h2 <;> simp [h1, hl, h2]
  · rintro (h | h | h | h | h | h) <;> simp [tryWhereIn2BatchPointGet, h]

/-- C6 witness: an ORDER BY statement is refused by both paths. -/
theorem c6_clause_refusal_witness :
    tryPointGetPlan {} (sampleStmt false true) false = none ∧
    tryWhereIn2BatchPointGet {} (sampleStmt false true) = none :=
  ⟨(c6_clause_refusal {} (sampleStmt false true) false).1 (Or.inr (Or.inl rfl)),
   (c6_clause_refusal {} (sampleStmt false true) false).2 (Or.inl rfl)⟩

/-- C6 counterexample: a statement with a GROUP BY clause (and nothing else
disqualifying) still receives a point-get plan — GROUP BY does not disqualify
the single-row fast path, contrary to the claim. -/
theorem c6_counterexample :
    (sampleStmt true false).hasGroupBy = true ∧
    (tryPointGetPlan {} (sampleStmt true false) false).map
      (fun p => (p.isTableDual, p.handle)) = some (false, some 1) := by
  constructor
  · rfl
  · rfl

/-!
## C10 — read precedence inside `PointGetExecutor.get`
-/

/-- C10: an empty key fails with not-exist and touches no storage; with a
valid, non-read-only transaction the value comes from the transaction's
mem-buffer first, then (only when the plan locks) from the session's
pessimistic-lock cache; the lock cache is never consulted when the plan does
not lock; and the snapshot is consulted only when both earlier sources
missed. -/
theorem c10_get_precedence (sv : ExecSessVars) (e : PointGetExec) (k : EncKey) :
    get sv e none = (.error .notExist, []) ∧
    (e.txn.valid = true ∧ e.txn.readOnly = false →
      (∀ v, kvLookup e.txn.memBuffer k = some v →
          get sv e (some k) = (.ok v, [.readMemBuffer k])) ∧
      (kvLookup e.txn.memBuffer k = none → e.lock = true →
        ∀ v, kvLookup sv.lockCache k = some v →
          get sv e (some k) = (.ok v, [.readMemBuffer k, .readLockCache k]))) ∧
    (e.lock = false → Event.readLockCache k ∉ (get sv e (some k)).2) ∧
    (Event.readSnapshot k ∈ (get sv e (some k)).2 →
      e.txn.valid = true → e.txn.readOnly = false →
        kvLookup e.txn.memBuffer k = none ∧
        (e.lock = true → kvLookup sv.lockCache k = none)) := by
  refine ⟨rfl, ?_, ?_, ?_⟩
  · rintro ⟨hv, hro⟩
    constructor
    · intro v hm
      simp [get, hv, hro, hm]
    · intro hm hl v hc
      simp [get, hv, hro, hm, hl, hc]
  · intro hl
    unfold get
    dsimp only
    split_ifs <;> (repeat' split) <;> simp_all
  · intro hmem hv hro
    unfold get at hmem
    dsimp only at hmem
    rw [hv, hro] at hmem
    simp only [Bool.not_false, Bool.and_self, if_true] at hmem
    rcases hm : kvLookup e.txn.memBuffer k with _ | v
    · rw [hm] at hmem
      refine ⟨rfl, fun hl => ?_⟩
      rw [hl] at hmem
      rcases hc : kvLookup sv.lockCache k with _ | v
      · rfl
      · rw [hc] at hmem
        simp at hmem
    · rw [hm] at hmem
      simp at hmem

/-- C10 witness: concrete runs exercising each precedence level. -/
theorem c10_get_precedence_witness :
    get {} (idxExec okSnap) none = (.error .notExist, []) ∧
    (get lockCacheSv { idxExec okSnap with lock := true, txn := memBufTxn }
        (some sampleIdxKey) =
      (.ok (some (.rowData 4)), [.readMemBuffer sampleIdxKey])) ∧
    (get lockCacheSv { idxExec okSnap with lock := true, txn := emptyBufTxn }
        (some sampleIdxKey) =
      (.ok (some (.rowData 5)), [.readMemBuffer sampleIdxKey, .readLockCache sampleIdxKey])) := by
  refine ⟨(c10_get_precedence {} (idxExec okSnap) sampleIdxKey).1, ?_, ?_⟩
  · exact ((c10_get_precedence lockCacheSv
      { idxExec okSnap with lock := true, txn := memBufTxn } sampleIdxKey).2.1
        ⟨rfl, rfl⟩).1 _ rfl
  · exact ((c10_get_precedence lockCacheSv
      { idxExec okSnap with lock := true, txn := emptyBufTxn } sampleIdxKey).2.1
        ⟨rfl, rfl⟩).2 rfl rfl _ rfl

/-!
## C9 — temporary tables never lock
-/

lemma get_no_lock_events_all (sv : ExecSessVars) (e : PointGetExec) (key : KvKey) :
    (get sv e key).2.all (fun ev => !ev.isLock) = true := by
  unfold get
  dsimp only
  repeat' split
  all_goals rfl

lemma get_no_lock_events (sv : ExecSessVars) (e : PointGetExec) (key : KvKey) :
    ∀ ev ∈ (get sv e key).2, ev.isLock = false := by
  intro ev hev
  have h := List.all_eq_true.1 (get_no_lock_events_all sv e key) ev hev
  simpa using h

lemma lockKeyBase_no_lock (sv : ExecSessVars) (e : PointGetExec) (key : KvKey)
    (b : Bool) (h : e.lock = false) :
    lockKeyBase sv e key b = (.ok none, sv, []) := by
  unfold lockKeyBase
  rcases key with _ | k
  · rfl
  · simp [h]

lemma getTolerant_events (sv : ExecSessVars) (e : PointGetExec) (key : KvKey) :
    (getTolerant sv e key).2 = (get sv e key).2 := by
  unfold getTolerant
  rcases hg : get sv e key with ⟨res, evs⟩
  rcases res with err | v
  · rcases err <;> rfl
  · rfl

lemma getAndLock_no_lock_events (sv : ExecSessVars) (e : PointGetExec)
    (key : KvKey) (h : e.lock = false) :
    ∀ ev ∈ (getAndLock sv e key).2.2, ev.isLock = false := by
  intro ev hev
  unfold getAndLock at hev
  by_cases hrc : sv.isPessimisticReadConsistency = true
  · rw [if_pos hrc, if_neg (by simp [h])] at hev
    dsimp only at hev
    rw [getTolerant_events] at hev
    exact get_no_lock_events sv e key ev hev
  · rw [if_neg hrc, lockKeyBase_no_lock sv e key false h] at hev
    dsimp only at hev
    rw [List.nil_append, getTolerant_events] at hev
    exact get_no_lock_events sv e key ev hev

lemma idxKeyReadStep_no_lock_events (sv : ExecSessVars) (e : PointGetExec)
    (h : e.lock = false) :
    ∀ ev ∈ (idxKeyReadStep sv e).2.2, ev.isLock = false := by
  intro ev hev
  unfold idxKeyReadStep at hev
  dsimp only at hev
  by_cases hrc : sv.isPessimisticReadConsistency = true
  · rw [if_neg (by simp [hrc]), if_neg (by simp [h])] at hev
    dsimp only at hev
    rw [getTolerant_events] at hev
    exact get_no_lock_events sv e e.idxKey ev hev
  · simp only [Bool.not_eq_true] at hrc
    rw [if_pos (by simp [hrc]), lockKeyBase_no_lock sv e e.idxKey false h] at hev
    dsimp only at hev
    rw [List.nil_append, getTolerant_events] at hev
    exact get_no_lock_events sv e e.idxKey ev hev

lemma nextRowRead_events (sv : ExecSessVars) (e : PointGetExec) (tblID : Int) :
    (nextRowRead sv e tblID).events =
      (match e.handle with
       | none => []
       | some h => (getAndLock sv e (some (.rowKey tblID h))).2.2) := by
  unfold nextRowRead
  rcases e.handle with _ | h
  · rfl
  · dsimp only
    rcases getAndLock sv e (some (.rowKey tblID h)) with ⟨res, sv1, evs⟩
    rcases res with err | v
    · rfl
    · rcases v with _ | v
      · simp only [apply_ite NextResult.events, ite_self]
      · rfl

lemma nextRowRead_no_lock_events (sv : ExecSessVars) (e : PointGetExec)
    (tblID : Int) (h : e.lock = false) :
    ∀ ev ∈ (nextRowRead sv e tblID).events, ev.isLock = false := by
  intro ev hev
  rw [nextRowRead_events] at hev
  rcases he : e.handle with _ | hd
  · rw [he] at hev; simp at hev
  · rw [he] at hev
    exact getAndLock_no_lock_events sv e _ h ev hev

lemma nextIdxWithKey_no_lock_events (sv : ExecSessVars) (e : PointGetExec)
    (idx : IndexInfo) (tblID : Int) (h : e.lock = false) :
    ∀ ev ∈ (nextIdxNonCommon.nextIdxWithKey sv e idx tblID).events,
      ev.isLock = false := by
  intro ev hev
  unfold nextIdxNonCommon.nextIdxWithKey at hev
  have hstep := idxKeyReadStep_no_lock_events sv e h
  rcases hs : idxKeyReadStep sv e with ⟨res, sv1, evs⟩
  rw [hs] at hev hstep
  rcases res with err | hv
  · exact hstep ev hev
  · rcases hv with _ | stored
    · exact hstep ev hev
    · dsimp only at hev
      rcases hdec : decodeHandleInUniqueIndexValue stored with err | hd
      · rw [hdec] at hev
        exact hstep ev hev
      · rw [hdec] at hev
        dsimp only at hev
        by_cases hg : idx.global = true
        · rw [if_pos hg] at hev
          rcases stored with en | pl
          · dsimp only at hev
            rcases hp : en.partID with _ | pid
            · rw [hp] at hev
              exact hstep ev hev
            · rw [hp] at hev
              dsimp only at hev
              rcases List.mem_append.1 hev with hev1 | hev2
              · exact hstep ev hev1
              · refine nextRowRead_no_lock_events sv1 _ pid ?_ ev hev2
                exact h
          · dsimp only at hev
            exact hstep ev hev
        · rw [if_neg hg] at hev
          rcases List.mem_append.1 hev with hev1 | hev2
          · exact hstep ev hev1
          · refine nextRowRead_no_lock_events sv1 _ tblID ?_ ev hev2
            exact h

lemma nextIdxNonCommon_no_lock_events (sv : ExecSessVars) (e : PointGetExec)
    (idx : IndexInfo) (tblID : Int) (h : e.lock = false) :
    ∀ ev ∈ (nextIdxNonCommon sv e idx tblID).events, ev.isLock = false := by
  intro ev hev
  unfold nextIdxNonCommon at hev
  rcases henc : encodeUniqueIndexKey e.tblInfo idx e.idxVals tblID with err | k
  · rw [henc] at hev
    dsimp only at hev
    split at hev
    · simp at hev
    · refine nextIdxWithKey_no_lock_events sv _ idx tblID ?_ ev hev
      exact h
  · rw [henc] at hev
    dsimp only at hev
    refine nextIdxWithKey_no_lock_events sv _ idx tblID ?_ ev hev
    exact h

lemma next_no_lock_events (sv : ExecSessVars) (e : PointGetExec)
    (h : e.lock = false) :
    ∀ ev ∈ (next sv e).events, ev.isLock = false := by
  intro ev hev
  unfold next at hev
  by_cases hd : e.done = true
  · simp [hd] at hev
  · simp only [Bool.not_eq_true] at hd
    rw [hd] at hev
    simp only [Bool.false_eq_true, if_false] at hev
    rcases hidx : e.idxInfo with _ | idx
    · rw [hidx] at hev
      dsimp only at hev
      refine nextRowRead_no_lock_events sv _ _ ?_ ev hev
      exact h
    · rw [hidx] at hev
      dsimp only at hev
      split at hev
      · rcases henc : encodeUniqueIndexValuesForKey e.tblInfo idx e.idxVals with err | hb
        · rw [henc] at hev
          rcases err <;> simp at hev
        · rw [henc] at hev
          dsimp only at hev
          refine nextRowRead_no_lock_events sv _ _ ?_ ev hev
          exact h
      · refine nextIdxNonCommon_no_lock_events sv _ idx _ ?_ ev hev
        exact h

/-- C9: for a plan over a temporary table, `Init` forces the executor's lock
flag to `false` and the lock wait time to `0`, and consequently no `Next`
execution over that executor ever emits a pessimistic-lock request,
whatever the plan's own `Lock`/`LockWaitTime` said. -/
theorem c9_temp_table_never_locks (p : PointGetPlan) (txn : TxnState)
    (snap cache : SnapMap) (sv : ExecSessVars) (h : p.tblInfo.tempTable = true) :
    (initExec p txn snap cache).lock = false ∧
    (initExec p txn snap cache).lockWaitTime = 0 ∧
    ∀ ev ∈ (next sv (initExec p txn snap cache)).events, ev.isLock = false := by
  have hl : (initExec p txn snap cache).lock = false := by simp [initExec, h]
  exact ⟨hl, by simp [initExec, h], next_no_lock_events sv _ hl⟩

/-- C9 witness: a locking plan over a temporary table is initialised without
the lock flag and emits no lock event. -/
theorem c9_temp_table_never_locks_witness :
    (initExec tempPlan emptyBufTxn [] []).lock = false ∧
    (initExec tempPlan emptyBufTxn [] []).lockWaitTime = 0 ∧
    Event.lockKey (.rowKey 1 (.intH 1)) false ∉
      (next {} (initExec tempPlan emptyBufTxn [] [])).events := by
  refine ⟨(c9_temp_table_never_locks tempPlan emptyBufTxn [] [] {} rfl).1,
    (c9_temp_table_never_locks tempPlan emptyBufTxn [] [] {} rfl).2.1,
    fun hmem => ?_⟩
  have := (c9_temp_table_never_locks tempPlan emptyBufTxn [] [] {} rfl).2.2 _ hmem
  simp [Event.isLock] at this

/-!
## C7 — hash-partition position and excluded-partition handling
-/

lemma natAbs_tmod_lt (v : Int) (n : Nat) (h : 0 < n) :
    (v.tmod (Int.ofNat n)).natAbs < n := by
  cases v with
  | ofNat m => simpa [Int.tmod] using Nat.mod_lt m h
  | negSucc m => simpa [Int.tmod] using Nat.mod_lt (m + 1) h

/-- C7: (i) for a hash-partitioned table, the resolver assigns the partition
at position `|v tmod N|` (absolute value of Go's truncated signed remainder),
a position always within range; (ii) when the computed partition is excluded
by an explicit PARTITION clause of the statement, `tryPointGetPlan` produces
a TableDual plan rather than an error or a fallback. -/
theorem c7_hash_partition_and_exclusion :
    (∀ (tbl : TableInfo) (pe : PartExprModel) (pi : PartitionInfo)
        (pairs : List NVPair) (cn : String) (i : Nat) (v : Int),
      tbl.partitionExpr = some pe → pe.origExprCol = some cn →
      tbl.partition = some pi → pi.tp = .hash → 0 < pi.num →
      pairs.findIdx? (fun pr => cn == pr.colName) = some i →
      (pairs.getD i ⟨"", .tpBit, .dnull⟩).value = .dint v →
      (v.tmod (Int.ofNat pi.num)).natAbs < pi.num ∧
      getPartitionDef tbl pairs =
        (some (pi.definitions.getD (v.tmod (Int.ofNat pi.num)).natAbs dummyDef), i,
          Int.ofNat (v.tmod (Int.ofNat pi.num)).natAbs, false)) ∧
    (∀ (ctx : PlanCtx) (stmt : SelectStmt) (check : Bool) (tblName : TableName)
        (alias0 : String) (tbl : TableInfo) (sn : List ColumnInfo × List String)
        (w : Expr) (pairs : List NVPair) (def0 : PartitionDefinition) (i : Nat)
        (pos : Int),
      stmt.hasHaving = false → stmt.hasOrderBy = false → stmt.limit = none →
      getSingleTableNameAndAlias stmt.fromClause = some (tblName, alias0) →
      tblName.tableInfo = some tbl →
      tbl.columns.any (fun c => c.isGenerated) = false →
      tbl.columns.any (fun c => !c.statePublic) = false →
      buildSchemaFromFields tbl alias0 stmt.fields = some sn →
      stmt.whereExpr = some w →
      getNameValuePairs tbl alias0 [] w = (some pairs, false) →
      tbl.partition.isSome = true →
      getPartitionDef tbl pairs = (some def0, i, pos, false) →
      tblName.partitionNames.isEmpty = false →
      partitionNameInSet def0.name tblName.partitionNames = false →
      ∃ p, tryPointGetPlan ctx stmt check = some p ∧ p.isTableDual = true) := by
  constructor
  · intro tbl pe pi pairs cn i v hpe hcol hpi htp hnum hfind hval
    refine ⟨natAbs_tmod_lt v pi.num hnum, ?_⟩
    unfold getPartitionDef
    rw [hpe]
    dsimp only
    rw [hpi]
    dsimp only
    rw [htp]
    dsimp only
    rw [hcol]
    dsimp only
    rw [hfind]
    dsimp only
    rw [hval]
    rfl
  · intro ctx stmt check tblName alias0 tbl sn w pairs def0 i pos
    intro hh ho hl hsingle htinfo hgen hpub hschema hwhere hpairs hpart hpdef hpn hnset
    rcases hp : tbl.partition with _ | pival
    · rw [hp] at hpart; simp at hpart
    · unfold tryPointGetPlan
      rw [hh, ho, hl]
      simp only [Bool.or_self, Bool.false_eq_true, if_false]
      rw [hsingle]
      dsimp only
      rw [htinfo]
      dsimp only
      rw [hgen, hpub]
      simp only [Bool.false_eq_true, if_false]
      rw [hschema]
      dsimp only
      rw [hwhere]
      dsimp only
      rw [hpairs]
      dsimp only
      simp only [Option.isNone_some, Bool.false_and, Bool.false_eq_true, if_false,
        Option.getD_some]
      rw [hp]
      dsimp only
      rw [hpdef]
      dsimp only
      simp only [Option.isSome_some, if_true, Bool.false_eq_true, if_false,
        Option.isNone_some]
      rw [hpn]
      simp only [Option.getD_some, hnset, Bool.not_false, Bool.and_self, if_true]
      exact ⟨_, rfl, rfl⟩

/-- C7 witness: `a = 13` on a 4-way hash-partitioned table resolves to
partition `p1` (position `13 tmod 4 = 1`), and selecting only `p0` in the
statement yields a TableDual plan. -/
theorem c7_hash_partition_and_exclusion_witness :
    getPartitionDef hashTbl [⟨"a", .tpInt true 32, .dint 13⟩] =
      (some ⟨102, "p1"⟩, 0, 1, false) ∧
    (tryPointGetPlan {} (hashStmt ["p0"] 13) false).map
      (fun p => p.isTableDual) = some true := by
  constructor
  · have h := (c7_hash_partition_and_exclusion.1 hashTbl
      { origExprCol := some "a", exprCol := some "a" } hashPartInfo
      [⟨"a", .tpInt true 32, .dint 13⟩] "a" 0 13 rfl rfl rfl rfl (by decide)
      rfl rfl).2
    simpa using h
  · obtain ⟨p, hp, hdual⟩ := c7_hash_partition_and_exclusion.2 {} (hashStmt ["p0"] 13)
      false { name := "t3", tableInfo := some hashTbl, partitionNames := ["p0"] } "t3"
      hashTbl (hashTbl.columns, ["a"]) (.eqExpr (.colRef "" "a") (.val (.dint 13)))
      [⟨"a", .tpInt true 32, .dint 13⟩] ⟨102, "p1"⟩ 0 1
      rfl rfl rfl rfl rfl rfl rfl rfl rfl rfl rfl rfl rfl rfl
    rw [hp]
    simp [hdual]

/-!
## C5 — unique-index selection conditions
-/

lemma findIdx?_go_mem {α : Type} (p : α → Bool) :
    ∀ (xs : List α) (s j : Nat), List.findIdx? p xs s = some j →
      ∃ x ∈ xs, p x = true := by
  intro xs
  induction xs with
  | nil => intro s j h; simp [List.findIdx?_nil] at h
  | cons a rest ih =>
    intro s j h
    rw [List.findIdx?_cons] at h
    by_cases hp : p a = true
    · exact ⟨a, List.mem_cons_self a rest, hp⟩
    · simp only [hp, Bool.false_eq_true, if_false] at h
      obtain ⟨x, hx, hpx⟩ := ih (s + 1) j h
      exact ⟨x, List.mem_cons_of_mem a hx, hpx⟩

lemma findIdx?_go_get {α : Type} (p : α → Bool) :
    ∀ (xs : List α) (s j : Nat), List.findIdx? p xs s = some j →
      s ≤ j ∧ ∃ x, xs[j - s]? = some x ∧ p x = true := by
  intro xs
  induction xs with
  | nil => intro s j h; simp [List.findIdx?_nil] at h
  | cons a rest ih =>
    intro s j h
    rw [List.findIdx?_cons] at h
    by_cases hp : p a = true
    · simp only [hp, if_true] at h
      cases h
      exact ⟨le_refl _, a, by simp, hp⟩
    · simp only [hp, Bool.false_eq_true, if_false] at h
      obtain ⟨hle, x, hx, hpx⟩ := ih (s + 1) j h
      refine ⟨by omega, x, ?_, hpx⟩
      have hj : j - s = (j - (s + 1)) + 1 := by omega
      rw [hj]
      simpa using hx

lemma findInPairs_mem (name : String) (pairs : List NVPair) (i : Nat)
    (h : findInPairs name pairs = some i) :
    ∃ pr ∈ pairs, pr.colName = name := by
  obtain ⟨pr, hpr, hname⟩ := findIdx?_go_mem _ pairs 0 i h
  exact ⟨pr, hpr, by simpa using hname⟩

lemma collect_covered (pairs : List NVPair) :
    ∀ (cs : List IndexColumn) (res : List Datum × List FieldTp),
      getIndexValues.collect pairs cs = some res →
      ∀ c ∈ cs, ∃ pr ∈ pairs, pr.colName = c.name := by
  intro cs
  induction cs with
  | nil => intro res _ c hc; simp at hc
  | cons c0 rest ih =>
    intro res h c hc
    rw [getIndexValues.collect] at h
    rcases hf : findInPairs c0.name pairs with _ | i
    · rw [hf] at h; simp at h
    · rw [hf] at h
      dsimp only at h
      rcases hg : pairs[i]? with _ | pr
      · rw [hg] at h; simp at h
      · rcases hrest : getIndexValues.collect pairs rest with _ | vr
        · rw [hg, hrest] at h; simp at h
        · rcases List.mem_cons.1 hc with rfl | hc2
          · exact findInPairs_mem c.name pairs i hf
          · exact ih vr hrest c hc2

lemma getIndexValues_some_facts (idx : IndexInfo) (pairs : List NVPair)
    (h : (getIndexValues idx pairs).isSome = true) :
    idx.columns.length = pairs.length ∧ idx.hasPrefixIndex = false ∧
    ∀ c ∈ idx.columns, ∃ pr ∈ pairs, pr.colName = c.name := by
  unfold getIndexValues at h
  by_cases h1 : idx.columns.length = pairs.length
  · rw [if_neg (by simpa using h1)] at h
    by_cases h2 : idx.hasPrefixIndex = true
    · rw [if_pos h2] at h; simp at h
    · simp only [Bool.not_eq_true] at h2
      rw [if_neg (by simp [h2])] at h
      refine ⟨h1, h2, ?_⟩
      rcases hc : getIndexValues.collect pairs idx.columns with _ | res
      · rw [hc] at h; simp at h
      · exact collect_covered pairs idx.columns res hc
  · rw [if_pos (by simpa using h1)] at h
    simp at h

lemma getIndexValues_length_mismatch (idx : IndexInfo) (pairs : List NVPair)
    (h : idx.columns.length ≠ pairs.length) : getIndexValues idx pairs = none := by
  unfold getIndexValues
  rw [if_pos (by simpa using h)]

lemma qualifies_cond_false (idx0 : IndexInfo) (hints : List IndexHint)
    (pairs : List NVPair)
    (hq1 : (!idx0.unique || !idx0.statePublic || idx0.invisible || idx0.mvIndex ||
        !indexIsAvailableByHints (some idx0) hints) = true) :
    idxQualifies hints pairs idx0 = false := by
  unfold idxQualifies
  cases hu : idx0.unique <;> cases hs : idx0.statePublic <;>
    cases hi : idx0.invisible <;> cases hm : idx0.mvIndex <;>
    cases hh : indexIsAvailableByHints (some idx0) hints <;>
    simp_all

lemma qualifies_cond_true (idx0 : IndexInfo) (hints : List IndexHint)
    (pairs : List NVPair) (val : List Datum × List FieldTp)
    (hq1 : ¬((!idx0.unique || !idx0.statePublic || idx0.invisible || idx0.mvIndex ||
        !indexIsAvailableByHints (some idx0) hints) = true))
    (hgv : getIndexValues idx0 pairs = some val) :
    idxQualifies hints pairs idx0 = true := by
  unfold idxQualifies
  cases hu : idx0.unique <;> cases hs : idx0.statePublic <;>
    cases hi : idx0.invisible <;> cases hm : idx0.mvIndex <;>
    cases hh : indexIsAvailableByHints (some idx0) hints <;>
    simp_all

lemma checkTblIndexLoop_some_plain (ctx : PlanCtx) (tblName : TableName)
    (tbl : TableInfo) (dbName : String) (schema : List ColumnInfo)
    (names : List String) (pairs : List NVPair)
    (pd : Option PartitionDefinition) (pos : Nat) :
    ∀ (lst : List IndexInfo) (p : PointGetPlan),
      checkTblIndexLoop ctx tblName tbl dbName schema names pairs pd pos
        false false lst false none = some p →
      ∃ pre idx suf, lst = pre ++ idx :: suf ∧ p.indexInfo = some idx ∧
        idxQualifies tblName.indexHints pairs idx = true ∧
        ∀ idx' ∈ pre, idxQualifies tblName.indexHints pairs idx' = false := by
  intro lst
  induction lst with
  | nil => intro p h; simp [checkTblIndexLoop] at h
  | cons idx0 rest ih =>
    intro p h
    unfold checkTblIndexLoop at h
    by_cases hq1 : (!idx0.unique || !idx0.statePublic || idx0.invisible || idx0.mvIndex ||
        !indexIsAvailableByHints (some idx0) tblName.indexHints) = true
    · rw [if_pos hq1] at h
      obtain ⟨pre, idx, suf, heq, hinfo, hqual, hpre⟩ := ih p h
      refine ⟨idx0 :: pre, idx, suf, by rw [heq]; rfl, hinfo, hqual, ?_⟩
      intro idx' hmem
      rcases List.mem_cons.1 hmem with rfl | hmem2
      · exact qualifies_cond_false idx' tblName.indexHints pairs hq1
      · exact hpre idx' hmem2
    · rw [if_neg hq1] at h
      rw [if_neg (by simp)] at h
      rw [if_neg (by simp)] at h
      rcases hgv : getIndexValues idx0 pairs with _ | val
      · rw [hgv] at h
        obtain ⟨pre, idx, suf, heq, hinfo, hqual, hpre⟩ := ih p h
        refine ⟨idx0 :: pre, idx, suf, by rw [heq]; rfl, hinfo, hqual, ?_⟩
        intro idx' hmem
        rcases List.mem_cons.1 hmem with rfl | hmem2
        · simp [idxQualifies, hgv]
        · exact hpre idx' hmem2
      · rcases val with ⟨vals, fts⟩
        rw [hgv] at h
        dsimp only at h
        rcases Option.some.inj h with rfl
        exact ⟨[], idx0, rest, rfl, rfl,
          qualifies_cond_true idx0 tblName.indexHints pairs (vals, fts) hq1 hgv,
          by simp⟩

/-- C5: when the unique-secondary-index resolution path (outside dual and
global-index modes, with `check` off) produces a plan through index `idx`,
that index is unique, public, visible, not multi-valued, has no prefix
column, survives the USE/FORCE/IGNORE INDEX hint filter, and its declared
column set matches the extracted pairs exactly in size and identity; it is
the first qualifying index in declaration order; and any index whose column
count differs from the pair count can never be matched (partial or superset
matches fail). -/
theorem c5_unique_index_selection (ctx : PlanCtx) (tblName : TableName)
    (schema : List ColumnInfo) (names : List String) (pairs : List NVPair)
    (pd : Option PartitionDefinition) (pos : Nat) (tbl : TableInfo)
    (p : PointGetPlan) (idx : IndexInfo)
    (hrc : ctx.isRC = false)
    (htbl : tblName.tableInfo = some tbl)
    (hres : checkTblIndexForPointPlan ctx tblName schema names pairs pd pos
      false false false = some p)
    (hinfo : p.indexInfo = some idx) :
    (idx.unique = true ∧ idx.statePublic = true ∧ idx.invisible = false ∧
      idx.mvIndex = false ∧
      indexIsAvailableByHints (some idx) tblName.indexHints = true ∧
      idx.hasPrefixIndex = false ∧ idx.columns.length = pairs.length ∧
      (∀ c ∈ idx.columns, ∃ pr ∈ pairs, pr.colName = c.name)) ∧
    (∃ pre suf, tbl.indices = pre ++ idx :: suf ∧
      ∀ idx' ∈ pre, idxQualifies tblName.indexHints pairs idx' = false) ∧
    (∀ idx' : IndexInfo, idx'.columns.length ≠ pairs.length →
      getIndexValues idx' pairs = none) := by
  unfold checkTblIndexForPointPlan at hres
  rw [if_neg (by simp)] at hres
  rw [htbl] at hres
  dsimp only at hres
  rw [hrc] at hres
  simp only [Bool.false_or, Bool.false_and, Bool.or_false] at hres
  obtain ⟨pre, idx2, suf, heq, hinfo2, hqual, hpre⟩ :=
    checkTblIndexLoop_some_plain ctx tblName tbl _ schema names pairs pd pos
      tbl.indices p hres
  rw [hinfo] at hinfo2
  have hsub : idx = idx2 := Option.some.inj hinfo2
  subst hsub
  have hq := hqual
  unfold idxQualifies at hq
  simp only [Bool.and_eq_true] at hq
  obtain ⟨⟨⟨⟨⟨hu, hs⟩, hi⟩, hm⟩, hh⟩, hiv⟩ := hq
  obtain ⟨hlen, hpref, hcov⟩ := getIndexValues_some_facts idx pairs hiv
  exact ⟨⟨hu, hs, by simpa using hi, by simpa using hm, hh, hpref, hlen, hcov⟩,
    ⟨pre, suf, heq, hpre⟩,
    fun idx' hne => getIndexValues_length_mismatch idx' pairs hne⟩

/-- C5 witness: with a non-unique index declared first, resolution picks the
unique index `uk(b)` for the pair set `b = 7`, skipping the earlier
non-qualifying index. -/
theorem c5_unique_index_selection_witness :
    sampleIdx.unique = true ∧ sampleIdx.columns.length = c5Pairs.length ∧
    (∃ pre suf, idxTblWithBad.indices = pre ++ sampleIdx :: suf ∧
      ∀ idx' ∈ pre, idxQualifies c5TblName.indexHints c5Pairs idx' = false) := by
  have h := c5_unique_index_selection {} c5TblName [] [] c5Pairs none 0
    idxTblWithBad c5Plan sampleIdx rfl rfl rfl rfl
  exact ⟨h.1.1, h.1.2.2.2.2.2.2.1, h.2.1⟩

/-!
## C8 — batch plans keep the positional order and duplicates of the IN-list
-/

lemma batchHandleLoop_spec (tbl : TableInfo) (hc : ColumnInfo) :
    ∀ (items : List Expr) (hs : List Int) (m : List (Int × PartitionDefinition)),
      batchHandleLoop tbl hc items = some (hs, m) →
      hs.length = items.length ∧
      ∀ i, i < items.length →
        ∃ d, batchHandleItem hc (items.getD i .otherExpr) = some d ∧
          hs[i]? = some d.getInt64 := by
  intro items
  induction items with
  | nil =>
    intro hs m h
    unfold batchHandleLoop at h
    simp only [Option.some.injEq, Prod.mk.injEq] at h
    obtain ⟨h1, _⟩ := h
    subst h1
    exact ⟨rfl, fun i hi => absurd hi (by simp)⟩
  | cons item rest ih =>
    intro hs m h
    unfold batchHandleLoop at h
    rcases hitem : batchHandleItem hc item with _ | d
    · rw [hitem] at h; simp at h
    · rw [hitem] at h
      dsimp only at h
      rcases hrest : batchHandleLoop tbl hc rest with _ | pr
      · rw [hrest] at h; simp at h
      · rcases pr with ⟨hs', m'⟩
        rw [hrest] at h
        dsimp only at h
        obtain ⟨hlen, hidx⟩ := ih hs' m' hrest
        have hhs : hs = d.getInt64 :: hs' := by
          by_cases hp : tbl.partition.isSome = true
          · rw [if_pos hp] at h
            rcases hpd : getPartitionDef tbl [⟨hc.name, hc.ftype, d⟩] with ⟨pd, i2, pos, dual⟩
            rw [hpd] at h
            rcases dual
            · rcases pd with _ | def0 <;>
                (simp only [Option.some.injEq, Prod.mk.injEq] at h; exact h.1.symm)
            · simp at h
          · rw [if_neg hp] at h
            simp only [Option.some.injEq, Prod.mk.injEq] at h
            exact h.1.symm
        subst hhs
        refine ⟨by simp [hlen], ?_⟩
        intro i hi
        cases i with
        | zero => exact ⟨d, by simpa using hitem, by simp⟩
        | succ n =>
          have hn : n < rest.length := by simpa using hi
          obtain ⟨d2, hd2, hidx2⟩ := hidx n hn
          exact ⟨d2, by simpa using hd2, by simpa using hidx2⟩

lemma batchIndexLoop_spec (tbl : TableInfo) (wcn : List String)
    (cis : List ColumnInfo) (perms : List Nat) :
    ∀ (items : List Expr) (vs : List (List Datum))
      (m : List (Int × PartitionDefinition)),
      batchIndexLoop tbl wcn cis perms items = some (vs, m) →
      vs.length = items.length ∧
      ∀ i, i < items.length →
        ∃ v prs, batchIndexItem wcn cis perms (items.getD i .otherExpr) = some (v, prs) ∧
          vs[i]? = some v := by
  intro items
  induction items with
  | nil =>
    intro vs m h
    unfold batchIndexLoop at h
    simp only [Option.some.injEq, Prod.mk.injEq] at h
    obtain ⟨h1, _⟩ := h
    subst h1
    exact ⟨rfl, fun i hi => absurd hi (by simp)⟩
  | cons item rest ih =>
    intro vs m h
    unfold batchIndexLoop at h
    rcases hitem : batchIndexItem wcn cis perms item with _ | vp
    · rw [hitem] at h; simp at h
    · rcases vp with ⟨values, prs⟩
      rw [hitem] at h
      dsimp only at h
      rcases hrest : batchIndexLoop tbl wcn cis perms rest with _ | pr
      · rw [hrest] at h; simp at h
      · rcases pr with ⟨vs', m'⟩
        rw [hrest] at h
        dsimp only at h
        obtain ⟨hlen, hidx⟩ := ih vs' m' hrest
        have hvs : vs = values :: vs' := by
          by_cases hp : tbl.partition.isSome = true
          · rw [if_pos hp] at h
            rcases hpd : getPartitionDef tbl prs with ⟨pd, i2, pos, dual⟩
            rw [hpd] at h
            rcases dual
            · rcases pd with _ | def0 <;>
                (simp only [Option.some.injEq, Prod.mk.injEq] at h; exact h.1.symm)
            · simp at h
          · rw [if_neg hp] at h
            simp only [Option.some.injEq, Prod.mk.injEq] at h
            exact h.1.symm
        subst hvs
        refine ⟨by simp [hlen], ?_⟩
        intro i hi
        cases i with
        | zero => exact ⟨values, prs, by simpa using hitem, by simp⟩
        | succ n =>
          have hn : n < rest.length := by simpa using hi
          obtain ⟨v2, prs2, hd2, hidx2⟩ := hidx n hn
          exact ⟨v2, prs2, by simpa using hd2, by simpa using hidx2⟩

/-- C8: a batch point-get plan built from an IN-list of `n` elements carries
exactly `n` resolved keys (handles, or index-value rows), in the positional
order of the IN-list, each obtained from its own element by the per-element
extraction — so duplicate IN-list values stay as separate entries. -/
theorem c8_batch_positional (list : List Expr) (handleColOpt : Option ColumnInfo)
    (tbl : TableInfo) (sn : List ColumnInfo × List String) (wcn : List String)
    (hints : List IndexHint) (p : BatchPointGetPlan)
    (h : newBatchPointGetPlan list handleColOpt tbl sn wcn hints = some p) :
    (∀ hc, handleColOpt = some hc →
      p.handles.length = list.length ∧
      ∀ i, i < list.length →
        ∃ d, batchHandleItem hc (list.getD i .otherExpr) = some d ∧
          p.handles[i]? = some d.getInt64) ∧
    (handleColOpt = none →
      ∃ idx perms, findMatchIdx wcn hints tbl.indices = some (idx, perms) ∧
        p.indexInfo = some idx ∧
        p.indexValues.length = list.length ∧
        ∀ i, i < list.length →
          ∃ v prs, batchIndexItem wcn (batchColInfos tbl wcn) perms
              (list.getD i .otherExpr) = some (v, prs) ∧
            p.indexValues[i]? = some v) := by
  unfold newBatchPointGetPlan at h
  split at h
  · simp at h
  · constructor
    · rintro hc rfl
      dsimp only at h
      rcases hloop : batchHandleLoop tbl hc list with _ | pr
      · rw [hloop] at h; simp at h
      · rcases pr with ⟨hs, m⟩
        rw [hloop] at h
        dsimp only at h
        rcases Option.some.inj h with rfl
        simpa using batchHandleLoop_spec tbl hc list hs m hloop
    · rintro rfl
      dsimp only at h
      rcases hmatch : findMatchIdx wcn hints tbl.indices with _ | ip
      · rw [hmatch] at h; simp at h
      · rcases ip with ⟨idx, perms⟩
        rw [hmatch] at h
        dsimp only at h
        rcases hpos : getPartitionColumnPos idx tbl.partitionExpr tbl with u | pos
        · rw [hpos] at h; simp at h
        · rw [hpos] at h
          dsimp only at h
          rcases hloop : batchIndexLoop tbl wcn (batchColInfos tbl wcn) perms list
            with _ | pr
          · rw [hloop] at h; simp at h
          · rcases pr with ⟨vs, m⟩
            rw [hloop] at h
            dsimp only at h
            rcases Option.some.inj h with rfl
            obtain ⟨hlen, hidx⟩ :=
              batchIndexLoop_spec tbl wcn (batchColInfos tbl wcn) perms list vs m hloop
            exact ⟨idx, perms, by simp [hmatch], rfl, by simpa using hlen, hidx⟩

/-- C8 witness: `a IN (1, 2, 1)` keeps three positional handles including
the duplicate. -/
theorem c8_batch_positional_witness :
    newBatchPointGetPlan c8List (some pkColA) sampleTbl ([], []) [] [] =
      some c8Plan ∧
    c8Plan.handles.length = c8List.length ∧ c8Plan.handles[2]? = some 1 := by
  have h := (c8_batch_positional c8List (some pkColA) sampleTbl ([], []) [] []
    c8Plan rfl).1 pkColA rfl
  refine ⟨rfl, h.1, ?_⟩
  obtain ⟨d, hd, hval⟩ := h.2 2 (by decide)
  rw [show batchHandleItem pkColA (c8List.getD 2 .otherExpr) =
    some (Datum.dint 1) from rfl] at hd
  cases Option.some.inj hd
  simpa using hval

/-!
## C3 — overflow handling in the resolver and the index-value encoder
-/

lemma checkTblIndexLoop_dual (ctx : PlanCtx) (tblName : TableName)
    (tbl : TableInfo) (dbName : String) (schema : List ColumnInfo)
    (names : List String) (pairs : List NVPair)
    (pd : Option PartitionDefinition) (pos : Nat) :
    ∀ lst : List IndexInfo,
      (∃ idxW ∈ lst,
        (!idxW.unique || !idxW.statePublic || idxW.invisible || idxW.mvIndex ||
          !indexIsAvailableByHints (some idxW) tblName.indexHints) = false) →
      ∃ p, checkTblIndexLoop ctx tblName tbl dbName schema names pairs pd pos
        false true lst false none = some p ∧ p.isTableDual = true := by
  intro lst
  induction lst with
  | nil => rintro ⟨idxW, hmem, _⟩; simp at hmem
  | cons idx0 rest ih =>
    rintro ⟨idxW, hmem, hcond⟩
    unfold checkTblIndexLoop
    by_cases hq1 : (!idx0.unique || !idx0.statePublic || idx0.invisible || idx0.mvIndex ||
        !indexIsAvailableByHints (some idx0) tblName.indexHints) = true
    · rw [if_pos hq1]
      refine ih ⟨idxW, ?_, hcond⟩
      rcases List.mem_cons.1 hmem with rfl | h2
      · rw [hcond] at hq1; simp at hq1
      · exact h2
    · rw [if_neg hq1]
      rw [if_neg (by simp)]
      rw [if_pos rfl]
      exact ⟨_, rfl, rfl⟩

lemma idxKeyReadStep_none (sv : ExecSessVars) (e : PointGetExec)
    (h : e.idxKey = none) : idxKeyReadStep sv e = (.ok none, sv, []) := by
  unfold idxKeyReadStep
  dsimp only
  rw [h]
  by_cases hrc : sv.isPessimisticReadConsistency = true
  · rw [if_neg (by simp [hrc])]
    by_cases hl : e.lock = true
    · rw [if_pos hl]; rfl
    · rw [if_neg hl]; rfl
  · simp only [Bool.not_eq_true] at hrc
    rw [if_pos (by simp [hrc])]
    rfl

/-- C3 as amended: (i) a constant whose coercion to the column type
overflows makes predicate extraction flag `isTableDual`; (ii) on a
NON-partitioned table this yields a TableDual plan through the handle path
(single pair on the hint-eligible primary-key handle); (iii) likewise
through the unique-index path whenever some hint-eligible public unique
index exists; (iv) at execution time, an index-value encoding that fails the
cast with `kv.ErrNotExist` (overflow / data-too-long / truncation) makes
`Next` return an empty result with no storage interaction — never a
surfaced cast error.  (For partitioned tables, (ii)/(iii) fail; see the
counterexample.) -/
theorem c3_overflow_behaviour :
    (∀ (tbl : TableInfo) (tblName : String) (nv : List NVPair) (n : String)
        (d : Datum) (col : ColumnInfo),
      d.isNull = false → tbl.isView = false →
      findColumnInfo tbl.columns n = some col →
      (match col.ftype with | .tpString b => b | _ => false) = false →
      checkCanConvertInPointGet col d = true →
      (convertTo d col.ftype).2 = some .overflow →
      getNameValuePairsEq tbl tblName nv "" n d =
        (some (nv ++ [⟨n, col.ftype, d⟩]), true)) ∧
    (∀ (ctx : PlanCtx) (stmt : SelectStmt) (check : Bool) (tblName : TableName)
        (alias0 : String) (tbl : TableInfo) (sn : List ColumnInfo × List String)
        (w : Expr) (pairs : List NVPair) (hp : NVPair) (ft : Option FieldTp),
      stmt.hasHaving = false → stmt.hasOrderBy = false → stmt.limit = none →
      getSingleTableNameAndAlias stmt.fromClause = some (tblName, alias0) →
      tblName.tableInfo = some tbl →
      tbl.columns.any (fun c => c.isGenerated) = false →
      tbl.columns.any (fun c => !c.statePublic) = false →
      buildSchemaFromFields tbl alias0 stmt.fields = some sn →
      stmt.whereExpr = some w →
      getNameValuePairs tbl alias0 [] w = (some pairs, true) →
      tbl.partition = none →
      findPKHandle tbl pairs = (some hp, ft) →
      hp.value.isNull = false → pairs.length = 1 →
      indexIsAvailableByHints none tblName.indexHints = true →
      ∃ p, tryPointGetPlan ctx stmt check = some p ∧ p.isTableDual = true) ∧
    (∀ (ctx : PlanCtx) (stmt : SelectStmt) (tblName : TableName)
        (alias0 : String) (tbl : TableInfo) (sn : List ColumnInfo × List String)
        (w : Expr) (po : Option (List NVPair)) (idxW : IndexInfo),
      stmt.hasHaving = false → stmt.hasOrderBy = false → stmt.limit = none →
      getSingleTableNameAndAlias stmt.fromClause = some (tblName, alias0) →
      tblName.tableInfo = some tbl →
      tbl.columns.any (fun c => c.isGenerated) = false →
      tbl.columns.any (fun c => !c.statePublic) = false →
      buildSchemaFromFields tbl alias0 stmt.fields = some sn →
      stmt.whereExpr = some w →
      getNameValuePairs tbl alias0 [] w = (po, true) →
      tbl.partition = none →
      (findPKHandle tbl (po.getD [])).1 = none →
      idxW ∈ tbl.indices →
      (!idxW.unique || !idxW.statePublic || idxW.invisible || idxW.mvIndex ||
        !indexIsAvailableByHints (some idxW) tblName.indexHints) = false →
      ctx.isRC = false →
      ∃ p, tryPointGetPlan ctx stmt false = some p ∧ p.isTableDual = true) ∧
    (∀ (sv : ExecSessVars) (e : PointGetExec) (idx : IndexInfo),
      e.done = false → e.idxInfo = some idx →
      isCommonHandleRead e.tblInfo idx = false →
      encodeUniqueIndexValuesForKey e.tblInfo idx e.idxVals = .error .notExist →
      (next sv e).res = .ok none ∧ (next sv e).events = []) := by
  refine ⟨?_, ?_, ?_, ?_⟩
  · intro tbl tblName nv n d col hnull hview hcol hstr hconv hover
    unfold getNameValuePairsEq
    rw [hnull]
    simp only [Bool.false_eq_true, if_false]
    rw [hview]
    simp only [Bool.false_eq_true, if_false]
    rw [if_neg (by simp)]
    rw [hcol]
    dsimp only
    rw [hstr]
    simp only [Bool.false_eq_true, if_false]
    rw [hconv]
    simp only [Bool.not_true, Bool.false_eq_true, if_false]
    rw [hover]
  · intro ctx stmt check tblName alias0 tbl sn w pairs hp ft
    intro hh ho hl hsingle htinfo hgen hpub hschema hwhere hpairs hpart hfk hnn hlen hhint
    unfold tryPointGetPlan
    rw [hh, ho, hl]
    simp only [Bool.or_self, Bool.false_eq_true, if_false]
    rw [hsingle]
    dsimp only
    rw [htinfo]
    dsimp only
    rw [hgen, hpub]
    simp only [Bool.false_eq_true, if_false]
    rw [hschema]
    dsimp only
    rw [hwhere]
    dsimp only
    rw [hpairs]
    dsimp only
    simp only [Option.isNone_some, Bool.false_and, Bool.false_eq_true, if_false,
      Option.getD_some]
    rw [hpart]
    dsimp only
    simp only [Option.isSome_none, Bool.false_eq_true, if_false]
    unfold tryPointGetPlan.tryPointGetPlanHandlePart
    rw [hfk]
    dsimp only
    rw [hnn, hlen, hhint]
    rw [if_pos (by decide)]
    rw [if_pos rfl]
    exact ⟨_, rfl, rfl⟩
  · intro ctx stmt tblName alias0 tbl sn w po idxW
    intro hh ho hl hsingle htinfo hgen hpub hschema hwhere hpairs hpart hfk hmem hcond hrc
    unfold tryPointGetPlan
    rw [hh, ho, hl]
    simp only [Bool.or_self, Bool.false_eq_true, if_false]
    rw [hsingle]
    dsimp only
    rw [htinfo]
    dsimp only
    rw [hgen, hpub]
    simp only [Bool.false_eq_true, if_false]
    rw [hschema]
    dsimp only
    rw [hwhere]
    dsimp only
    rw [hpairs]
    dsimp only
    simp only [Bool.not_true, Bool.and_false, Bool.false_eq_true, if_false]
    rw [hpart]
    dsimp only
    simp only [Option.isSome_none, Bool.false_eq_true, if_false]
    unfold tryPointGetPlan.tryPointGetPlanHandlePart
    rcases hfk2 : findPKHandle tbl (po.getD []) with ⟨fk1, fk2⟩
    rw [hfk2] at hfk
    dsimp only at hfk
    rw [hfk]
    dsimp only
    unfold checkTblIndexForPointPlan
    rw [if_neg (by simp)]
    rw [htinfo]
    dsimp only
    rw [hrc]
    simp only [Bool.or_false, Bool.false_and, Bool.and_false]
    exact checkTblIndexLoop_dual ctx tblName tbl _ sn.1 sn.2 (po.getD []) none 0
      tbl.indices ⟨idxW, hmem, hcond⟩
  · intro sv e idx hdone hidx hch henc
    unfold next
    rw [hdone]
    simp only [Bool.false_eq_true, if_false]
    rw [hidx]
    dsimp only
    rw [hch]
    simp only [Bool.false_eq_true, if_false]
    unfold nextIdxNonCommon
    have hkey : encodeUniqueIndexKey e.tblInfo idx e.idxVals
        (match e.partitionDef with
         | some def0 => def0.id
         | none => e.tblInfo.id) = .error .notExist := by
      unfold encodeUniqueIndexKey
      rw [henc]
      rfl
    rw [hkey]
    dsimp only
    rw [if_neg (by simp)]
    unfold nextIdxNonCommon.nextIdxWithKey
    rw [idxKeyReadStep_none sv _ rfl]
    exact ⟨rfl, rfl⟩

/-- C3 witness: concrete overflow runs for each amended conjunct — the
extraction flags dual; `SELECT * FROM t2 WHERE a = 2^40` (handle path) and
`SELECT * FROM t8 WHERE b = 2^40` (unique-index path) both produce TableDual
plans on their non-partitioned tables; executing the overflowing index
encode returns an empty result with no storage events. -/
theorem c3_overflow_behaviour_witness :
    getNameValuePairsEq overflowTbl "t2" [] "" "a" (.dint (2 ^ 40)) =
      (some [⟨"a", .tpInt true 32, .dint (2 ^ 40)⟩], true) ∧
    (tryPointGetPlan {} overflowStmt false).map (fun p => p.isTableDual) =
      some true ∧
    (tryPointGetPlan {} overflowIdxStmt false).map (fun p => p.isTableDual) =
      some true ∧
    (next {} overflowExec).res = .ok none := by
  refine ⟨?_, ?_, ?_, ?_⟩
  · exact c3_overflow_behaviour.1 overflowTbl "t2" [] "a" (.dint (2 ^ 40))
      { name := "a", ftype := .tpInt true 32, hasPriKeyFlag := true }
      rfl rfl rfl rfl rfl rfl
  · obtain ⟨p, hp, hdual⟩ := c3_overflow_behaviour.2.1 {} overflowStmt false
      { name := "t2", tableInfo := some overflowTbl } "t2" overflowTbl
      (overflowTbl.columns, ["a"])
      (.eqExpr (.colRef "" "a") (.val (.dint (2 ^ 40))))
      [⟨"a", .tpInt true 32, .dint (2 ^ 40)⟩]
      ⟨"a", .tpInt true 32, .dint (2 ^ 40)⟩ (some (.tpInt true 32))
      rfl rfl rfl rfl rfl rfl rfl rfl rfl rfl rfl rfl rfl rfl rfl
    rw [hp]
    simp [hdual]
  · obtain ⟨p, hp, hdual⟩ := c3_overflow_behaviour.2.2.1 {} overflowIdxStmt
      { name := "t8", tableInfo := some smallColTbl } "t8" smallColTbl
      (smallColTbl.columns, ["b"])
      (.eqExpr (.colRef "" "b") (.val (.dint (2 ^ 40))))
      (some [⟨"b", .tpInt true 32, .dint (2 ^ 40)⟩]) smallIdx
      rfl rfl rfl rfl rfl rfl rfl rfl rfl rfl rfl rfl (by simp [smallColTbl]) rfl rfl
    rw [hp]
    simp [hdual]
  · exact (c3_overflow_behaviour.2.2.2 {} overflowExec smallIdx rfl rfl rfl rfl).1

/-- C3 counterexample: on a hash-partitioned table the overflow dual flag is
overwritten during partition resolution, and `a = 2^40` (overflowing the int
column) yields a regular point plan carrying the raw value — not a TableDual
plan. -/
theorem c3_counterexample :
    (tryPointGetPlan {} (hashStmt [] (2 ^ 40)) false).map
      (fun p => (p.isTableDual, p.handle)) = some (false, some (2 ^ 40)) := by
  rfl

/-!
## C2 — index/row inconsistency reporting
-/

lemma get_snapshot_direct (sv : ExecSessVars) (e : PointGetExec) (k : EncKey)
    (htxn : e.txn.valid = false) (htl : e.tblInfo.tableLockRead = false) :
    get sv e (some k) =
      (match snapLookup e.snapshot k with
       | some v => (.ok (some v), [.readSnapshot k])
       | none => (.error .notExist, [.readSnapshot k])) := by
  unfold get
  dsimp only
  rw [htxn, htl]
  simp only [Bool.false_and, Bool.false_eq_true, if_false]

lemma getTolerant_snapshot (sv : ExecSessVars) (e : PointGetExec) (k : EncKey)
    (htxn : e.txn.valid = false) (htl : e.tblInfo.tableLockRead = false) :
    getTolerant sv e (some k) =
      (match snapLookup e.snapshot k with
       | some v => (.ok (some v), [.readSnapshot k])
       | none => (.ok none, [.readSnapshot k])) := by
  unfold getTolerant
  rw [get_snapshot_direct sv e k htxn htl]
  rcases snapLookup e.snapshot k with _ | v <;> rfl

lemma idxKeyReadStep_nolock (sv : ExecSessVars) (e : PointGetExec)
    (hl : e.lock = false) :
    idxKeyReadStep sv e =
      ((getTolerant sv e e.idxKey).1, sv, (getTolerant sv e e.idxKey).2) := by
  unfold idxKeyReadStep
  dsimp only
  by_cases hrc : sv.isPessimisticReadConsistency = true
  · rw [if_neg (by simp [hrc]), if_neg (by simp [hl])]
  · simp only [Bool.not_eq_true] at hrc
    rw [if_pos (by simp [hrc]), lockKeyBase_no_lock sv e e.idxKey false hl]
    dsimp only
    rw [List.nil_append]

lemma getAndLock_nolock (sv : ExecSessVars) (e : PointGetExec) (key : KvKey)
    (hl : e.lock = false) :
    getAndLock sv e key =
      ((getTolerant sv e key).1, sv, (getTolerant sv e key).2) := by
  unfold getAndLock
  by_cases hrc : sv.isPessimisticReadConsistency = true
  · rw [if_pos hrc, if_neg (by simp [hl])]
  · rw [if_neg hrc, lockKeyBase_no_lock sv e key false hl]
    dsimp only
    rw [List.nil_append]

lemma next_res_idx_snapshot (sv : ExecSessVars) (e : PointGetExec)
    (idx : IndexInfo) (encVals : List Datum)
    (hdone : e.done = false) (hidx : e.idxInfo = some idx)
    (hch : isCommonHandleRead e.tblInfo idx = false)
    (hglobal : idx.global = false)
    (hlock : e.lock = false) (htxn : e.txn.valid = false)
    (htl : e.tblInfo.tableLockRead = false)
    (hpd : e.partitionDef = none)
    (henc : encodeUniqueIndexValuesForKey e.tblInfo idx e.idxVals = .ok encVals) :
    (next sv e).res =
      (match snapLookup e.snapshot (.idxKey e.tblInfo.id idx.id encVals) with
       | none => .ok none
       | some (.rowData _pl) => .error .other
       | some (.idxEntry en) =>
           match snapLookup e.snapshot (.rowKey e.tblInfo.id en.handle) with
           | some v => .ok (some v)
           | none =>
               if sv.weakConsistency then .ok none
               else .error .inconsistent) := by
  unfold next
  rw [hdone]
  simp only [Bool.false_eq_true, if_false]
  rw [hidx]
  dsimp only
  rw [hch]
  simp only [Bool.false_eq_true, if_false]
  rw [hpd]
  dsimp only
  unfold nextIdxNonCommon
  have hkey : encodeUniqueIndexKey e.tblInfo idx e.idxVals e.tblInfo.id =
      .ok (.idxKey e.tblInfo.id idx.id encVals) := by
    unfold encodeUniqueIndexKey
    rw [henc]
    rfl
  rw [hkey]
  dsimp only
  unfold nextIdxNonCommon.nextIdxWithKey
  rw [idxKeyReadStep_nolock sv _ (by exact hlock)]
  dsimp only
  rw [getTolerant_snapshot sv _ _ (by exact htxn) (by exact htl)]
  rcases hsnap : snapLookup e.snapshot (.idxKey e.tblInfo.id idx.id encVals)
    with _ | stored
  · rfl
  · dsimp only
    rcases stored with en | pl
    · dsimp only [decodeHandleInUniqueIndexValue]
      rw [hglobal]
      simp only [Bool.false_eq_true, if_false]
      unfold nextRowRead
      dsimp only
      rw [getAndLock_nolock sv _ _ (by exact hlock)]
      rw [getTolerant_snapshot sv _ _ (by exact htxn) (by exact htl)]
      rcases hrow : snapLookup e.snapshot (.rowKey e.tblInfo.id en.handle)
        with _ | v
      · simp only [Option.isSome_some, Bool.true_and, hch, Bool.not_false]
        by_cases hw : sv.weakConsistency = true
        · rw [hw]
          simp
        · simp only [Bool.not_eq_true] at hw
          rw [hw]
          simp
      · rfl
    · dsimp only [decodeHandleInUniqueIndexValue]

/-- C2: a unique-secondary-index point read whose index entry names a handle
with no stored row reports an index/row inconsistency error instead of
silently returning empty — unless weak-consistency mode is active, in which
case (as also when the index entry itself is absent) the result is an empty
chunk with no report. -/
theorem c2_index_row_inconsistency (sv : ExecSessVars) (e : PointGetExec)
    (idx : IndexInfo) (encVals : List Datum)
    (hdone : e.done = false) (hidx : e.idxInfo = some idx)
    (hch : isCommonHandleRead e.tblInfo idx = false)
    (hglobal : idx.global = false)
    (hlock : e.lock = false) (htxn : e.txn.valid = false)
    (htl : e.tblInfo.tableLockRead = false)
    (hpd : e.partitionDef = none)
    (henc : encodeUniqueIndexValuesForKey e.tblInfo idx e.idxVals = .ok encVals) :
    (∀ en, snapLookup e.snapshot (.idxKey e.tblInfo.id idx.id encVals) =
        some (.idxEntry en) →
      snapLookup e.snapshot (.rowKey e.tblInfo.id en.handle) = none →
      (sv.weakConsistency = false → (next sv e).res = .error .inconsistent) ∧
      (sv.weakConsistency = true → (next sv e).res = .ok none)) ∧
    (snapLookup e.snapshot (.idxKey e.tblInfo.id idx.id encVals) = none →
      (next sv e).res = .ok none) := by
  have hres := next_res_idx_snapshot sv e idx encVals hdone hidx hch hglobal
    hlock htxn htl hpd henc
  constructor
  · intro en hentry hrow
    rw [hentry] at hres
    dsimp only at hres
    rw [hrow] at hres
    constructor
    · intro hw
      rw [hw] at hres
      simpa using hres
    · intro hw
      rw [hw] at hres
      simpa using hres
  · intro hnone
    rw [hnone] at hres
    exact hres

/-- C2 witness: a stale index entry (handle 9, no row) triggers the
inconsistency error; with weak consistency, or with no index entry at all,
the result is empty with no error. -/
theorem c2_index_row_inconsistency_witness :
    (next {} (idxExec staleSnap)).res = .error .inconsistent ∧
    (next { weakConsistency := true } (idxExec staleSnap)).res = .ok none ∧
    (next {} (idxExec [])).res = .ok none := by
  refine ⟨?_, ?_, ?_⟩
  · exact ((c2_index_row_inconsistency {} (idxExec staleSnap) sampleIdx [.dint 7]
      rfl rfl rfl rfl rfl rfl rfl rfl rfl).1 ⟨.intH 9, none⟩ rfl rfl).1 rfl
  · exact ((c2_index_row_inconsistency { weakConsistency := true }
      (idxExec staleSnap) sampleIdx [.dint 7]
      rfl rfl rfl rfl rfl rfl rfl rfl rfl).1 ⟨.intH 9, none⟩ rfl rfl).2 rfl
  · exact (c2_index_row_inconsistency {} (idxExec []) sampleIdx [.dint 7]
      rfl rfl rfl rfl rfl rfl rfl rfl rfl).2 rfl

/-!
## C1 — lock-acquisition ordering
-/

lemma get_events_sub (sv : ExecSessVars) (e : PointGetExec) (k : EncKey) :
    ∀ ev ∈ (get sv e (some k)).2,
      ev = Event.readMemBuffer k ∨ ev = Event.readLockCache k ∨
      ev = Event.readStoreCache k ∨ ev = Event.readSnapshot k := by
  intro ev hev
  unfold get at hev
  dsimp only at hev
  repeat' split at hev
  all_goals aesop

lemma get_events_on (sv : ExecSessVars) (e : PointGetExec) (k : EncKey) :
    ∀ ev ∈ (get sv e (some k)).2, ev.isLock = false ∧ ev.keyOf = k := by
  intro ev hev
  rcases get_events_sub sv e k ev hev with rfl | rfl | rfl | rfl <;> exact ⟨rfl, rfl⟩

lemma getTolerant_events_on (sv : ExecSessVars) (e : PointGetExec) (k : EncKey) :
    ∀ ev ∈ (getTolerant sv e (some k)).2, ev.isLock = false ∧ ev.keyOf = k := by
  rw [getTolerant_events]
  exact get_events_on sv e k

lemma getTolerant_no_lock (sv : ExecSessVars) (e : PointGetExec) (key : KvKey) :
    ∀ ev ∈ (getTolerant sv e key).2, ev.isLock = false := by
  rw [getTolerant_events]
  exact get_no_lock_events sv e key

lemma lockKeyBase_false_full (sv : ExecSessVars) (e : PointGetExec) (k : EncKey) :
    ∃ sv1, lockKeyBase sv e (some k) false =
      (.ok none, sv1, if e.lock then [Event.lockKey k false] else []) := by
  unfold lockKeyBase
  dsimp only
  by_cases hl : e.lock = true
  · rw [if_pos hl, if_pos hl]
    exact ⟨_, rfl⟩
  · rw [if_neg hl, if_neg hl]
    exact ⟨_, rfl⟩

lemma contains_cons_ne (a k : EncKey) (seen : List EncKey) (hne : k ≠ a)
    (h : seen.contains k = false) : (a :: seen).contains k = false := by
  rw [List.contains_cons, h, Bool.or_false]
  exact beq_eq_false_iff_ne.mpr hne

lemma nlar_reads (k : EncKey) (tr : List Event) :
    ∀ seen : List EncKey, (∀ ev ∈ tr, ev.isLock = false ∧ ev.keyOf = k) →
      noLockAfterRead seen tr = true := by
  induction tr with
  | nil => intro seen _; rfl
  | cons ev rest ih =>
      intro seen h
      have h0 := h ev (List.mem_cons_self ev rest)
      unfold noLockAfterRead
      rw [h0.1, if_neg Bool.false_ne_true]
      exact ih (ev.keyOf :: seen) (fun x hx => h x (List.mem_cons_of_mem ev hx))

lemma nlar_phase (k : EncKey) (tr : List Event) (seen : List EncKey)
    (h : PhaseShape k tr) (hk : seen.contains k = false) :
    noLockAfterRead seen tr = true := by
  obtain ⟨tr', hsplit, hro⟩ := h
  rcases hsplit with rfl | ⟨b, rfl⟩
  · exact nlar_reads k _ seen hro
  · unfold noLockAfterRead
    dsimp only [Event.isLock, Event.keyOf]
    rw [if_pos rfl, hk]
    simp only [Bool.not_false, Bool.true_and]
    exact nlar_reads k tr' seen hro

lemma nlar_single_phase (k : EncKey) (tr : List Event) (h : PhaseShape k tr) :
    noLockAfterRead [] tr = true :=
  nlar_phase k tr [] h rfl

lemma nlar_reads_append (k1 k2 : EncKey) (t2 : List Event)
    (h2 : PhaseShape k2 t2) (hne : k2 ≠ k1) (t1 : List Event) :
    ∀ seen : List EncKey, (∀ ev ∈ t1, ev.isLock = false ∧ ev.keyOf = k1) →
      seen.contains k2 = false →
      noLockAfterRead seen (t1 ++ t2) = true := by
  induction t1 with
  | nil =>
      intro seen _ hk2
      exact nlar_phase k2 t2 seen h2 hk2
  | cons ev rest ih =>
      intro seen h hk2
      have h0 := h ev (List.mem_cons_self ev rest)
      show noLockAfterRead seen (ev :: (rest ++ t2)) = true
      unfold noLockAfterRead
      rw [h0.1, if_neg Bool.false_ne_true]
      refine ih (ev.keyOf :: seen) (fun x hx => h x (List.mem_cons_of_mem ev hx)) ?_
      rw [h0.2]
      exact contains_cons_ne k1 k2 seen hne hk2

lemma nlar_two_phase (k1 k2 : EncKey) (t1 t2 : List Event) (hne : k2 ≠ k1)
    (h1 : PhaseShape k1 t1) (h2 : PhaseShape k2 t2) :
    noLockAfterRead [] (t1 ++ t2) = true := by
  obtain ⟨tr', hsplit, hro⟩ := h1
  rcases hsplit with rfl | ⟨b, rfl⟩
  · exact nlar_reads_append k1 k2 t2 h2 hne _ [] hro rfl
  · show noLockAfterRead [] (Event.lockKey k1 b :: (tr' ++ t2)) = true
    unfold noLockAfterRead
    dsimp only [Event.isLock, Event.keyOf]
    rw [if_pos rfl]
    have hc : (([] : List EncKey).contains k1) = false := rfl
    rw [hc]
    simp only [Bool.not_false, Bool.true_and]
    exact nlar_reads_append k1 k2 t2 h2 hne tr' [] hro rfl

lemma getAndLock_rr_phase (sv : ExecSessVars) (e : PointGetExec) (k : EncKey)
    (hrc : sv.isPessimisticReadConsistency = false) :
    PhaseShape k (getAndLock sv e (some k)).2.2 := by
  unfold getAndLock
  rw [hrc, if_neg Bool.false_ne_true]
  obtain ⟨sv1, heq⟩ := lockKeyBase_false_full sv e k
  rw [heq]
  dsimp only
  by_cases hl : e.lock = true
  · rw [if_pos hl]
    exact ⟨(getTolerant sv1 e (some k)).2, Or.inr ⟨false, rfl⟩,
      getTolerant_events_on sv1 e k⟩
  · rw [if_neg hl]
    exact ⟨(getTolerant sv1 e (some k)).2, Or.inl rfl,
      getTolerant_events_on sv1 e k⟩

lemma idxKeyReadStep_rr_phase (sv : ExecSessVars) (e : PointGetExec) (kI : EncKey)
    (hrc : sv.isPessimisticReadConsistency = false) (hkey : e.idxKey = some kI) :
    PhaseShape kI (idxKeyReadStep sv e).2.2 := by
  unfold idxKeyReadStep
  dsimp only
  rw [hrc, if_pos (by decide), hkey]
  obtain ⟨sv1, heq⟩ := lockKeyBase_false_full sv e kI
  rw [heq]
  dsimp only
  by_cases hl : e.lock = true
  · rw [if_pos hl]
    exact ⟨(getTolerant sv1 e (some kI)).2, Or.inr ⟨false, rfl⟩,
      getTolerant_events_on sv1 e kI⟩
  · rw [if_neg hl]
    exact ⟨(getTolerant sv1 e (some kI)).2, Or.inl rfl,
      getTolerant_events_on sv1 e kI⟩

lemma nextRowRead_rr_nlar (sv : ExecSessVars) (e : PointGetExec) (tblID : Int)
    (hrc : sv.isPessimisticReadConsistency = false) :
    noLockAfterRead [] (nextRowRead sv e tblID).events = true := by
  rw [nextRowRead_events]
  rcases hh : e.handle with _ | hd
  · rfl
  · exact nlar_single_phase _ _ (getAndLock_rr_phase sv e (EncKey.rowKey tblID hd) hrc)

lemma encodeUniqueIndexKey_ok_shape (tbl : TableInfo) (idx : IndexInfo)
    (idxVals : List Datum) (tID : Int) (k : EncKey)
    (h : encodeUniqueIndexKey tbl idx idxVals tID = .ok k) :
    ∃ vs, k = EncKey.idxKey tID idx.id vs := by
  unfold encodeUniqueIndexKey at h
  rcases he : encodeUniqueIndexValuesForKey tbl idx idxVals with err | vs
  · rw [he] at h
    simp [Except.map] at h
  · rw [he] at h
    simp only [Except.map, Except.ok.injEq] at h
    exact ⟨vs, h.symm⟩

lemma lockKeyBase_rc_flag (sv : ExecSessVars) (e : PointGetExec) (key : KvKey)
    (b : Bool) :
    ((lockKeyBase sv e key b).2.1).isPessimisticReadConsistency =
      sv.isPessimisticReadConsistency := by
  unfold lockKeyBase
  rcases key with _ | k
  · rfl
  · dsimp only
    repeat' split
    all_goals rfl

lemma idxKeyReadStep_rc_flag (sv : ExecSessVars) (e : PointGetExec) :
    ((idxKeyReadStep sv e).2.1).isPessimisticReadConsistency =
      sv.isPessimisticReadConsistency := by
  unfold idxKeyReadStep
  dsimp only
  split
  · rcases hlb : lockKeyBase sv e e.idxKey false with ⟨res, sv1, evs⟩
    have h0 := lockKeyBase_rc_flag sv e e.idxKey false
    rw [hlb] at h0
    rcases res with err | v
    · exact h0
    · exact h0
  · split
    · exact lockKeyBase_rc_flag sv e e.idxKey true
    · rfl

lemma nextIdxWithKey_rr_nlar (sv : ExecSessVars) (e : PointGetExec)
    (idx : IndexInfo) (tblID : Int)
    (hrc : sv.isPessimisticReadConsistency = false)
    (hkind : e.idxKey = none ∨ ∃ ti ii vsi, e.idxKey = some (EncKey.idxKey ti ii vsi)) :
    noLockAfterRead [] (nextIdxNonCommon.nextIdxWithKey sv e idx tblID).events = true := by
  rcases hkind with hkey | ⟨ti, ii, vsi, hkey⟩
  · unfold nextIdxNonCommon.nextIdxWithKey
    rw [idxKeyReadStep_none sv e hkey]
    rfl
  · have hphase := idxKeyReadStep_rr_phase sv e (EncKey.idxKey ti ii vsi) hrc hkey
    unfold nextIdxNonCommon.nextIdxWithKey
    rcases hs : idxKeyReadStep sv e with ⟨res, sv1, evs⟩
    rw [hs] at hphase
    have hrc1 : sv1.isPessimisticReadConsistency = false := by
      have h0 := idxKeyReadStep_rc_flag sv e
      rw [hs] at h0
      exact h0.trans hrc
    rcases res with err | hv
    · exact nlar_single_phase _ evs hphase
    · rcases hv with _ | stored
      · exact nlar_single_phase _ evs hphase
      · dsimp only
        rcases hdec : decodeHandleInUniqueIndexValue stored with err | hd
        · exact nlar_single_phase _ evs hphase
        · dsimp only
          by_cases hg : idx.global = true
          · rw [if_pos hg]
            rcases stored with en | pl
            · dsimp only
              rcases hp : en.partID with _ | pid
              · exact nlar_single_phase _ evs hphase
              · dsimp only
                refine nlar_two_phase (EncKey.idxKey ti ii vsi)
                  (EncKey.rowKey pid hd) evs _ ?_ hphase ?_
                · intro hcon
                  exact EncKey.noConfusion hcon
                · rw [nextRowRead_events]
                  exact getAndLock_rr_phase sv1 _ (EncKey.rowKey pid hd) hrc1
            · dsimp only
              exact nlar_single_phase _ evs hphase
          · rw [if_neg hg]
            refine nlar_two_phase (EncKey.idxKey ti ii vsi)
              (EncKey.rowKey tblID hd) evs _ ?_ hphase ?_
            · intro hcon
              exact EncKey.noConfusion hcon
            · rw [nextRowRead_events]
              exact getAndLock_rr_phase sv1 _ (EncKey.rowKey tblID hd) hrc1

lemma nextIdxNonCommon_rr_nlar (sv : ExecSessVars) (e : PointGetExec)
    (idx : IndexInfo) (tblID : Int)
    (hrc : sv.isPessimisticReadConsistency = false) :
    noLockAfterRead [] (nextIdxNonCommon sv e idx tblID).events = true := by
  unfold nextIdxNonCommon
  rcases henc : encodeUniqueIndexKey e.tblInfo idx e.idxVals tblID with err | k
  · dsimp only
    split
    · rfl
    · exact nextIdxWithKey_rr_nlar sv _ idx tblID hrc (Or.inl rfl)
  · dsimp only
    obtain ⟨vs0, hk⟩ := encodeUniqueIndexKey_ok_shape e.tblInfo idx e.idxVals tblID k henc
    refine nextIdxWithKey_rr_nlar sv _ idx tblID hrc (Or.inr ⟨tblID, idx.id, vs0, ?_⟩)
    rw [hk]

lemma next_rr_nlar (sv : ExecSessVars) (e : PointGetExec)
    (hrc : sv.isPessimisticReadConsistency = false) :
    noLockAfterRead [] (next sv e).events = true := by
  unfold next
  by_cases hd : e.done = true
  · rw [if_pos hd]
    rfl
  · simp only [Bool.not_eq_true] at hd
    rw [hd]
    simp only [Bool.false_eq_true, if_false]
    rcases hidx : e.idxInfo with _ | idx
    · dsimp only
      exact nextRowRead_rr_nlar sv _ _ hrc
    · dsimp only
      split
      · rcases henc : encodeUniqueIndexValuesForKey e.tblInfo idx e.idxVals with err | hb
        · rcases err <;> rfl
        · dsimp only
          exact nextRowRead_rr_nlar sv _ _ hrc
      · exact nextIdxNonCommon_rr_nlar sv _ idx _ hrc

lemma rc_of_no_lock {snap : SnapMap} {tr : List Event}
    (h : ∀ ev ∈ tr, ev.isLock = false) : RcLockDiscipline snap tr := by
  intro ev hev k b hevEq
  have h0 := h ev hev
  rw [hevEq] at h0
  simp [Event.isLock] at h0

lemma getValueFromLockCtx_no_lock (sv : ExecSessVars) (e : PointGetExec)
    (vals : List (EncKey × LockCtxVal)) (k : EncKey) :
    ∀ ev ∈ (getValueFromLockCtx sv e vals k).2, ev.isLock = false := by
  intro ev hev
  unfold getValueFromLockCtx at hev
  rcases hf : vals.find? (fun entry => entry.1 == k) with _ | entry
  · rw [hf] at hev
    simp at hev
  · rw [hf] at hev
    dsimp only at hev
    split at hev
    · simp at hev
    · split at hev
      · have hg := get_no_lock_events sv e (some k)
        rcases hget : get sv e (some k) with ⟨res, evs⟩
        rw [hget] at hev hg
        rcases res with err | v
        · rcases err
          all_goals exact hg ev hev
        · exact hg ev hev
      · simp at hev

lemma lockKeyBase_true_full (sv : ExecSessVars) (e : PointGetExec) (k : EncKey)
    (hl : e.lock = true) :
    ∃ sv2, lockKeyBase sv e (some k) true =
      ((getValueFromLockCtx sv2 e (doLockKeys e.snapshot true k).1 k).1, sv2,
       (if (snapLookup e.snapshot k).isSome then [Event.lockKey k true] else []) ++
         (getValueFromLockCtx sv2 e (doLockKeys e.snapshot true k).1 k).2) := by
  unfold lockKeyBase
  dsimp only
  rw [if_pos hl]
  exact ⟨_, rfl⟩

lemma lockKeyBase_true_events (sv : ExecSessVars) (e : PointGetExec) (key : KvKey) :
    RcLockDiscipline e.snapshot (lockKeyBase sv e key true).2.2 := by
  intro ev hev k2 b hevEq
  rcases key with _ | k
  · have h0 : lockKeyBase sv e none true = (.ok none, sv, []) := rfl
    rw [h0] at hev
    simp at hev
  · by_cases hl : e.lock = true
    · obtain ⟨sv2, heq⟩ := lockKeyBase_true_full sv e k hl
      rw [heq] at hev
      dsimp only at hev
      rcases List.mem_append.1 hev with hev1 | hev2
      · by_cases hsnap : (snapLookup e.snapshot k).isSome = true
        · rw [if_pos hsnap] at hev1
          have hev0 : ev = Event.lockKey k true := by simpa using hev1
          rw [hev0] at hevEq
          injection hevEq with hk hb
          constructor
          · exact hb.symm
          · rw [← hk]
            exact hsnap
        · rw [if_neg hsnap] at hev1
          simp at hev1
      · have h0 := getValueFromLockCtx_no_lock sv2 e _ k ev hev2
        rw [hevEq] at h0
        simp [Event.isLock] at h0
    · simp only [Bool.not_eq_true] at hl
      rw [lockKeyBase_no_lock sv e (some k) true hl] at hev
      simp at hev

lemma getAndLock_rc (sv : ExecSessVars) (e : PointGetExec) (key : KvKey)
    (hrc : sv.isPessimisticReadConsistency = true) :
    RcLockDiscipline e.snapshot (getAndLock sv e key).2.2 := by
  unfold getAndLock
  rw [if_pos hrc]
  by_cases hl : e.lock = true
  · rw [if_pos hl]
    exact lockKeyBase_true_events sv e key
  · rw [if_neg hl]
    exact rc_of_no_lock (getTolerant_no_lock sv e key)

lemma idxKeyReadStep_rc (sv : ExecSessVars) (e : PointGetExec)
    (hrc : sv.isPessimisticReadConsistency = true) :
    RcLockDiscipline e.snapshot (idxKeyReadStep sv e).2.2 := by
  unfold idxKeyReadStep
  dsimp only
  rw [hrc, if_neg (by decide)]
  by_cases hl : e.lock = true
  · rw [if_pos hl]
    exact lockKeyBase_true_events sv e e.idxKey
  · rw [if_neg hl]
    exact rc_of_no_lock (getTolerant_no_lock sv e e.idxKey)

lemma nextRowRead_rc (sv : ExecSessVars) (e : PointGetExec) (tblID : Int)
    (hrc : sv.isPessimisticReadConsistency = true) :
    RcLockDiscipline e.snapshot (nextRowRead sv e tblID).events := by
  intro ev hev
  rw [nextRowRead_events] at hev
  rcases hh : e.handle with _ | hd
  · rw [hh] at hev
    simp at hev
  · rw [hh] at hev
    exact getAndLock_rc sv e _ hrc ev hev

lemma nextIdxWithKey_rc (sv : ExecSessVars) (e : PointGetExec)
    (idx : IndexInfo) (tblID : Int)
    (hrc : sv.isPessimisticReadConsistency = true) :
    RcLockDiscipline e.snapshot
      (nextIdxNonCommon.nextIdxWithKey sv e idx tblID).events := by
  intro ev hev
  unfold nextIdxNonCommon.nextIdxWithKey at hev
  have hstep := idxKeyReadStep_rc sv e hrc
  have hflag := idxKeyReadStep_rc_flag sv e
  rcases hs : idxKeyReadStep sv e with ⟨res, sv1, evs⟩
  rw [hs] at hev hstep hflag
  have hrc1 : sv1.isPessimisticReadConsistency = true := hflag.trans hrc
  rcases res with err | hv
  · exact hstep ev hev
  · rcases hv with _ | stored
    · exact hstep ev hev
    · dsimp only at hev
      rcases hdec : decodeHandleInUniqueIndexValue stored with err | hd
      · rw [hdec] at hev
        exact hstep ev hev
      · rw [hdec] at hev
        dsimp only at hev
        by_cases hg : idx.global = true
        · rw [if_pos hg] at hev
          rcases stored with en | pl
          · dsimp only at hev
            rcases hp : en.partID with _ | pid
            · rw [hp] at hev
              exact hstep ev hev
            · rw [hp] at hev
              dsimp only at hev
              rcases List.mem_append.1 hev with hev1 | hev2
              · exact hstep ev hev1
              · have h1 := nextRowRead_rc sv1 _ pid hrc1 ev hev2
                exact h1
          · dsimp only at hev
            exact hstep ev hev
        · rw [if_neg hg] at hev
          rcases List.mem_append.1 hev with hev1 | hev2
          · exact hstep ev hev1
          · have h1 := nextRowRead_rc sv1 _ tblID hrc1 ev hev2
            exact h1

lemma nextIdxNonCommon_rc (sv : ExecSessVars) (e : PointGetExec)
    (idx : IndexInfo) (tblID : Int)
    (hrc : sv.isPessimisticReadConsistency = true) :
    RcLockDiscipline e.snapshot (nextIdxNonCommon sv e idx tblID).events := by
  intro ev hev
  unfold nextIdxNonCommon at hev
  rcases henc : encodeUniqueIndexKey e.tblInfo idx e.idxVals tblID with err | k
  · rw [henc] at hev
    dsimp only at hev
    split at hev
    · simp at hev
    · have h1 := nextIdxWithKey_rc sv _ idx tblID hrc ev hev
      exact h1
  · rw [henc] at hev
    dsimp only at hev
    have h1 := nextIdxWithKey_rc sv _ idx tblID hrc ev hev
    exact h1

lemma next_rc (sv : ExecSessVars) (e : PointGetExec)
    (hrc : sv.isPessimisticReadConsistency = true) :
    RcLockDiscipline e.snapshot (next sv e).events := by
  intro ev hev
  unfold next at hev
  by_cases hd : e.done = true
  · simp [hd] at hev
  · simp only [Bool.not_eq_true] at hd
    rw [hd] at hev
    simp only [Bool.false_eq_true, if_false] at hev
    rcases hidx : e.idxInfo with _ | idx
    · rw [hidx] at hev
      dsimp only at hev
      have h1 := nextRowRead_rc sv _ _ hrc ev hev
      exact h1
    · rw [hidx] at hev
      dsimp only at hev
      split at hev
      · rcases henc : encodeUniqueIndexValuesForKey e.tblInfo idx e.idxVals with err | hb
        · rw [henc] at hev
          rcases err <;> simp at hev
        · rw [henc] at hev
          dsimp only at hev
          have h1 := nextRowRead_rc sv _ _ hrc ev hev
          exact h1
      · have h1 := nextIdxNonCommon_rc sv _ idx _ hrc ev hev
        exact h1

/-- C1: lock-acquisition ordering.  Under RR isolation (pessimistic read
consistency off) no `Next` trace ever locks a key after reading it;
`getAndLock` with the lock flag set emits the lock request for the key
before any read of it, and the index-key read step likewise locks the
index key before reading it.  Under RC read consistency every lock request
in a `Next` trace is lock-only-if-exists and concerns a key present in the
snapshot: keys that do not exist are never locked. -/
theorem c1_lock_ordering (sv : ExecSessVars) (e : PointGetExec) (k kI : EncKey) :
    (sv.isPessimisticReadConsistency = false →
      noLockAfterRead [] (next sv e).events = true) ∧
    (sv.isPessimisticReadConsistency = false → e.lock = true →
      ∃ readEvs, (getAndLock sv e (some k)).2.2 = Event.lockKey k false :: readEvs ∧
        ∀ ev ∈ readEvs, ev.isLock = false ∧ ev.keyOf = k) ∧
    (sv.isPessimisticReadConsistency = false → e.lock = true → e.idxKey = some kI →
      ∃ readEvs, (idxKeyReadStep sv e).2.2 = Event.lockKey kI false :: readEvs ∧
        ∀ ev ∈ readEvs, ev.isLock = false ∧ ev.keyOf = kI) ∧
    (sv.isPessimisticReadConsistency = true →
      RcLockDiscipline e.snapshot (next sv e).events) := by
  refine ⟨fun hrc => next_rr_nlar sv e hrc, fun hrc hl => ?_, fun hrc hl hkey => ?_,
    fun hrc => next_rc sv e hrc⟩
  · unfold getAndLock
    rw [hrc, if_neg Bool.false_ne_true]
    obtain ⟨sv1, heq⟩ := lockKeyBase_false_full sv e k
    rw [heq]
    dsimp only
    rw [if_pos hl]
    exact ⟨(getTolerant sv1 e (some k)).2, rfl, getTolerant_events_on sv1 e k⟩
  · unfold idxKeyReadStep
    dsimp only
    rw [hrc, if_pos (by decide), hkey]
    obtain ⟨sv1, heq⟩ := lockKeyBase_false_full sv e kI
    rw [heq]
    dsimp only
    rw [if_pos hl]
    exact ⟨(getTolerant sv1 e (some kI)).2, rfl, getTolerant_events_on sv1 e kI⟩

theorem c1_lock_ordering_witness :
    noLockAfterRead [] (next {} (idxLockExec okSnap)).events = true ∧
    (getAndLock {} (idxLockExec okSnap) (some (EncKey.rowKey 7 (.intH 9)))).2.2 =
      [Event.lockKey (EncKey.rowKey 7 (.intH 9)) false,
       Event.readSnapshot (EncKey.rowKey 7 (.intH 9))] ∧
    (Event.lockKey sampleIdxKey true ∈ (next rcSv (idxLockExec okSnap)).events ∧
      (snapLookup okSnap sampleIdxKey).isSome = true) := by
  refine ⟨(c1_lock_ordering {} (idxLockExec okSnap) (EncKey.rowKey 7 (.intH 9))
    sampleIdxKey).1 rfl, ?_, ?_⟩
  · obtain ⟨readEvs, heq, hro⟩ := (c1_lock_ordering {} (idxLockExec okSnap)
      (EncKey.rowKey 7 (.intH 9)) sampleIdxKey).2.1 rfl rfl
    have h2 : Event.lockKey (EncKey.rowKey 7 (.intH 9)) false :: readEvs =
        Event.lockKey (EncKey.rowKey 7 (.intH 9)) false ::
          [Event.readSnapshot (EncKey.rowKey 7 (.intH 9))] := by
      rw [← heq]
      rfl
    rw [heq, h2]
  · have hmem : Event.lockKey sampleIdxKey true ∈
        (next rcSv (idxLockExec okSnap)).events := by decide
    refine ⟨hmem, ?_⟩
    exact ((c1_lock_ordering rcSv (idxLockExec okSnap) (EncKey.rowKey 7 (.intH 9))
      sampleIdxKey).2.2.2 rfl (Event.lockKey sampleIdxKey true) hmem
      sampleIdxKey true rfl).2

end PointGetModel










